import Mathlib

/-!
Shallow embedding of the Seal5 workspace/settings core (`src/seal5/flow.py` and
`src/seal5/cli/init.py`) and proofs about its settings-merge algorithm, default
settings tree, workspace lifecycle, build/test stage wiring, and persistence.

Python values appearing in settings trees (strings, ints, bools, None, lists,
dicts with string keys) are embedded as the inductive type `YVal`; Python dicts
are ordered association lists (insertion order), matching CPython semantics.
Stateful code is embedded as explicit state passing; `raise`/`assert`/`sys.exit`
become `Except`; external processes (git, cmake, make, lit, the CoreDSL parser,
the YAML library) are modelled by their interfaces, with invocations recorded in
explicit effect traces.
-/

namespace Seal5

/-- A Python value as it occurs in a Seal5 settings tree: scalar strings,
integers, booleans, `None`, lists, and string-keyed dicts in insertion order. -/
inductive YVal where
  | s (x : String)
  | i (x : Int)
  | b (x : Bool)
  | null
  | list (xs : List YVal)
  | dict (entries : List (String × YVal))
deriving Repr

/-- A Python dict with string keys, in insertion order. -/
abbrev Dict := List (String × YVal)

/-- Python `d[key]` / `key in d` lookup: first entry with the given key. -/
def lookupY (k : String) : Dict → Option YVal
  | [] => none
  | (k2, v) :: rest => if k2 = k then some v else lookupY k rest

/-- Python `d[key] = v`: replace the value at an existing key in place (keeping
its position), or append a new entry at the end. -/
def setY (k : String) (v : YVal) : Dict → Dict
  | [] => [(k, v)]
  | (k2, w) :: rest => if k2 = k then (k, v) :: rest else (k2, w) :: setY k v rest

/-- Whether a value is a Python `dict` (the `isinstance(x, dict)` test). -/
def isDict : YVal → Bool
  | .dict _ => true
  | _ => false

mutual
/-- Python `==` on embedded values: `bool` compares equal to the corresponding
`int` (CPython treats `bool` as a subtype of `int`); lists compare pointwise;
dicts compare as key-value mappings (length plus per-key lookup, which agrees
with CPython for the duplicate-free dicts Python can actually build). -/
def pyEq : YVal → YVal → Bool
  | .s x, .s y => x == y
  | .i x, .i y => x == y
  | .b x, .b y => x == y
  | .b x, .i y => (if x then (1 : Int) else 0) == y
  | .i x, .b y => x == (if y then (1 : Int) else 0)
  | .null, .null => true
  | .list xs, .list ys => pyEqList xs ys
  | .dict xs, .dict ys => xs.length == ys.length && pyEqEntries xs ys
  | _, _ => false
termination_by v _ => sizeOf v

/-- Pointwise Python `==` on lists. -/
def pyEqList : List YVal → List YVal → Bool
  | [], [] => true
  | x :: xs, y :: ys => pyEq x y && pyEqList xs ys
  | _, _ => false
termination_by xs _ => sizeOf xs

/-- Every entry of the first dict is present in the second with a `pyEq` value. -/
def pyEqEntries : List (String × YVal) → List (String × YVal) → Bool
  | [], _ => true
  | (k, v) :: rest, ys =>
    (match lookupY k ys with
     | some w => pyEq v w
     | none => false) && pyEqEntries rest ys
termination_by xs _ => sizeOf xs
end

/-- All keys of a dict are distinct (an invariant of every real Python dict). -/
def distinctKeys : Dict → Bool
  | [] => true
  | (k, _) :: rest => (lookupY k rest).isNone && distinctKeys rest

mutual
/-- A value is well formed when every dict node reachable inside it has
distinct keys (an invariant of every value a Python program can build). -/
def wfY : YVal → Bool
  | .dict d => distinctKeys d && wfYEntries d
  | .list xs => wfYList xs
  | _ => true
termination_by v => sizeOf v

/-- Well-formedness of all the values of a dict. -/
def wfYEntries : List (String × YVal) → Bool
  | [] => true
  | (_, v) :: rest => wfY v && wfYEntries rest
termination_by l => sizeOf l

/-- Well-formedness of all the elements of a list. -/
def wfYList : List YVal → Bool
  | [] => true
  | x :: rest => wfY x && wfYList rest
termination_by l => sizeOf l
end

/-- Resolve a dotted key path in a nested dict: descend through dict values,
returning the value at the end of the path (the root dict for `[]`). -/
def lookupPath (d : Dict) : List String → Option YVal
  | [] => some (.dict d)
  | k :: rest =>
    match lookupY k d, rest with
    | some v, [] => some v
    | some (.dict d2), _ => lookupPath d2 rest
    | _, _ => none

/-- Embedding of `merge_dicts(a, b, path)` (src/seal5/flow.py:41-50): iterate
over `b`'s entries in order; for a key also in `a`, recurse when both values
are dicts, skip when the values are Python-equal, and raise
`Exception("Conflict at " + ".".join(path + [key]))` otherwise; a key new to
`a` is inserted. The Python function mutates `a` in place and returns it; the
embedding threads the updated dict and returns it in `Except`. -/
def merge_dicts (a b : Dict) (path : List String) : Except String Dict :=
  match b with
  | [] => .ok a
  | (key, bv) :: rest =>
    match lookupY key a with
    | some av =>
      match av, bv with
      | .dict ad, .dict bd =>
        match merge_dicts ad bd (path ++ [key]) with
        | .error e => .error e
        | .ok merged => merge_dicts (setY key (.dict merged) a) rest path
      | _, _ =>
        if pyEq av bv then merge_dicts a rest path
        else .error ("Conflict at " ++ String.intercalate "." (path ++ [key]))
    | none => merge_dicts (setY key bv a) rest path
termination_by sizeOf b

/-- Python `a.update(b)`: set each entry of `b` into `a`, in `b`'s order. -/
def updateDict (a b : Dict) : Dict :=
  b.foldl (fun acc kv => setY kv.1 kv.2 acc) a

/-- Embedding of the `YAMLSettings` data carrier (src/seal5/flow.py:184-219):
a wrapper around the nested settings dict (`validate` is a stub that always
returns `True`, so construction never fails). -/
structure YAMLSettings where
  data : Dict

/-- Embedding of `YAMLSettings.merge(self, other, overwrite)`
(src/seal5/flow.py:214-219): with `overwrite` a shallow top-level
`self.data.update(other.data)`, otherwise `merge_dicts(self.data, other.data)`
whose conflict exception propagates. -/
def YAMLSettings.merge (self other : YAMLSettings) (overwrite : Bool) :
    Except String YAMLSettings :=
  if overwrite then .ok ⟨updateDict self.data other.data⟩
  else
    match merge_dicts self.data other.data [] with
    | .ok d => .ok ⟨d⟩
    | .error e => .error e

/-- The dotted path `p` resolves in both trees to values that the merge
algorithm would report as a conflict: not both dicts, and not Python-equal. -/
def conflictPath (a b : Dict) (p : List String) : Prop :=
  ∃ va vb, lookupPath a p = some va ∧ lookupPath b p = some vb ∧
    (isDict va && isDict vb) = false ∧ pyEq va vb = false

/-- The dotted path `p` is a leaf (non-dict value) of the tree. -/
def leafAt (d : Dict) (p : List String) (v : YVal) : Prop :=
  lookupPath d p = some v ∧ isDict v = false

/-- Every path of `b` resolves in `c` to a value of the same dict-ness, with
non-dict values Python-equal. This is the state of the merged tree relative to
the incoming tree after a successful no-overwrite merge. -/
def Subsumes (c b : Dict) : Prop :=
  ∀ p vb, lookupPath b p = some vb →
    ∃ vc, lookupPath c p = some vc ∧ isDict vc = isDict vb ∧
      (isDict vb = false → pyEq vc vb = true)

/-- Python `";".join(xs)`: succeeds only when every element is a string
(otherwise CPython raises `TypeError`). -/
def joinStrs : List YVal → Option (List String)
  | [] => some []
  | .s x :: rest => (joinStrs rest).map (fun l => x :: l)
  | _ => none

/-- One option value rendered for the external build system, following the
branch order of `get_cmake_args` (src/seal5/flow.py:53-63): `bool` first
(`ON`/`OFF`), then `list` (joined with `;`, all elements must be strings),
then the `assert isinstance(value, (int, str))` fallback; `None` or nested
dicts fail the assertion, giving `none`. -/
def cmakeValue : YVal → Option String
  | .b true => some "ON"
  | .b false => some "OFF"
  | .list xs => (joinStrs xs).map (String.intercalate ";")
  | .i n => some (toString n)
  | .s x => some x
  | _ => none

/-- Embedding of `get_cmake_args(cfg)` (src/seal5/flow.py:53-63): one
`-D<KEY>=<value>` flag per option, in dict order; `none` models the
`AssertionError`/`TypeError` raised on an unsupported value. -/
def get_cmake_args : Dict → Option (List String)
  | [] => some []
  | (key, value) :: rest =>
    match cmakeValue value with
    | some v => (get_cmake_args rest).map (fun l => ("-D" ++ key ++ "=" ++ v) :: l)
    | none => none

/-- An external-process invocation performed by a pipeline stage. -/
inductive ExtCall where
  | cmakeConfigure (srcDir : String) (args : List String)
  | make (cwd : String)
deriving Repr

/-- Embedding of `build_llvm(src, dest, debug=False, use_ninja=False,
verbose=False, cmake_options={})` (src/seal5/flow.py:66-79): renders the
cmake flags from the `cmake_options` parameter, then invokes
`utils.cmake(src / "llvm", *cmake_args, ...)` followed by `utils.make`.
The `debug` parameter is never read by the body; it is kept in the embedding
(as an arbitrary Python value, since the caller in `Seal5Flow.build` passes a
dict there) to mirror the source's positional calling convention. -/
def build_llvm (src _dest : String) ( _debug : YVal) (_use_ninja _verbose : Bool)
    (cmake_options : Dict) : Option (List ExtCall) :=
  (get_cmake_args cmake_options).map fun args =>
    [ExtCall.cmakeConfigure (src ++ "/llvm") args, ExtCall.make _dest]

/-- The `.seal5` metadata directory under the workspace root. -/
def metaDirOf (directory : String) : String := directory ++ "/.seal5"

/-- The per-config build directory `meta_dir / "build" / config`. -/
def buildDirOf (directory config : String) : String :=
  metaDirOf directory ++ "/build/" ++ config

/-- The inputs directory `meta_dir / "inputs"`. -/
def inputsDirOf (directory : String) : String := metaDirOf directory ++ "/inputs"

/-- The models directory `meta_dir / "models"`. -/
def modelsDirOf (directory : String) : String := metaDirOf directory ++ "/models"

/-- The settings file `meta_dir / "settings.yml"`. -/
def settingsFileOf (directory : String) : String := metaDirOf directory ++ "/settings.yml"

/-- Embedding of `Seal5Flow.build(config="release")` (src/seal5/flow.py:452-458):
resolve `self.settings.llvm.configs.get(config, None)`, fail the
`assert llvm_config is not None` with `Invalid llvm config: <config>` when
absent, extract `llvm_config["options"]`, and call
`build_llvm(self.directory, self.build_dir / config, cmake_options)` — three
positional arguments, so the options dict is bound to `build_llvm`'s `debug`
parameter and its `cmake_options` parameter keeps its `{}` default, exactly as
in the source. Returns the external-process trace on success. -/
def Seal5Flow.build (settingsData : Dict) (directory config : String) :
    Except String (List ExtCall) :=
  match lookupY "llvm" settingsData with
  | some (.dict llvm) =>
    match lookupY "configs" llvm with
    | some (.dict configs) =>
      match lookupY config configs with
      | none => .error ("Invalid llvm config: " ++ config)
      | some llvm_config =>
        match llvm_config with
        | .dict lc =>
          match lookupY "options" lc with
          | some cmake_options =>
            match build_llvm directory (buildDirOf directory config)
                cmake_options false false [] with
            | some calls => .ok calls
            | none => .error "AssertionError: Unsupported cmake cfg"
          | none => .error "KeyError: options"
        | _ => .error "TypeError: llvm_config is not a mapping"
    | _ => .error "KeyError: configs"
  | _ => .error "KeyError: llvm"

/-- Embedding of `DEFAULT_SETTINGS` (src/seal5/flow.py:110-181), entry for
entry in source order. -/
def DEFAULT_SETTINGS : Dict :=
  [("logging", .dict
      [("console", .dict [("level", .s "INFO")]),
       ("file", .dict [("level", .s "DEBUG"), ("rotate", .b false), ("limit", .i 1000)])]),
   ("patch", .dict [("author", .s "Seal5"), ("mail", .s "example@example.com")]),
   ("transform", .dict [("passes", .s "*")]),
   ("test", .dict [("paths", .list [.s "MC/RISCV", .s "CodeGen/RISCV"])]),
   ("llvm", .dict
      [("state", .dict [("version", .s "auto"), ("base_commit", .s "unknown")]),
       ("configs", .dict
          [("release", .dict
              [("options", .dict
                  [("CMAKE_BUILD_TYPE", .s "Release"),
                   ("LLVM_BUILD_TOOLS", .b true),
                   ("LLVM_ENABLE_ASSERTIONS", .b false),
                   ("LLVM_OPTIMIZED_TABLEGEN", .b true),
                   ("LLVM_ENABLE_PROJECTS", .list [.s "clang", .s "lld"]),
                   ("LLVM_TARGETS_TO_BUILD", .list [.s "X86", .s "RISCV"])])]),
           ("release_assertions", .dict
              [("options", .dict
                  [("CMAKE_BUILD_TYPE", .s "Release"),
                   ("LLVM_BUILD_TOOLS", .b true),
                   ("LLVM_ENABLE_ASSERTIONS", .b true),
                   ("LLVM_OPTIMIZED_TABLEGEN", .b true),
                   ("LLVM_ENABLE_PROJECTS", .list [.s "clang", .s "lld"]),
                   ("LLVM_TARGETS_TO_BUILD", .list [.s "X86", .s "RISCV"])])]),
           ("debug", .dict
              [("options", .dict
                  [("CMAKE_BUILD_TYPE", .s "Debug"),
                   ("LLVM_BUILD_TOOLS", .b true),
                   ("LLVM_ENABLE_ASSERTIONS", .b true),
                   ("LLVM_OPTIMIZED_TABLEGEN", .b true),
                   ("LLVM_ENABLE_PROJECTS", .list [.s "clang", .s "lld"]),
                   ("LLVM_TARGETS_TO_BUILD", .list [.s "X86", .s "RISCV"])])])])]),
   ("inputs", .list []),
   ("extensions", .dict []),
   ("groups", .dict [("all", .s "*")])]

/-- Embedding of the `Seal5State` enum (src/seal5/flow.py:104-107). -/
inductive Seal5State where
  | UNKNOWN
  | UNINITIALIZED
  | INITIALIZED
deriving Repr, DecidableEq

/-- Embedding of `Seal5Flow.check` (src/seal5/flow.py:365-366): the body is
`pass`, so the state is returned unchanged. -/
def Seal5Flow.check (state : Seal5State) : Seal5State := state

/-- The on-disk facts `Seal5Flow.__init__`/`initialize` probe or change:
whether the workspace root and `.seal5` directory exist, the parsed content of
`.seal5/settings.yml` when that file exists, and whether `.seal5/logs` exists. -/
structure WorkFS where
  rootIsDir : Bool
  metaIsDir : Bool
  settingsFileData : Option Dict
  logsDirIsDir : Bool
deriving Repr

/-- The attributes of a `Seal5Flow` object after construction. -/
structure FlowObj where
  directory : String
  name : String
  state : Seal5State
  settings : Option Dict
deriving Repr

/-- Embedding of `Seal5Flow.__init__(directory, name="default")`
(src/seal5/flow.py:306-319): `self.state` is set to `Seal5State.UNKNOWN`, then
`self.check()` runs (a no-op), then the settings file is loaded when present.
No branch of the constructor writes any other state value. -/
def Seal5Flow.construct (fs : WorkFS) (directory name : String) : FlowObj :=
  { directory := directory, name := name,
    state := Seal5Flow.check Seal5State.UNKNOWN,
    settings := fs.settingsFileData }

/-- A side effect performed by the `initialize` method, in program order. -/
inductive InitEffect where
  | cloneRepo (url ref : Option String)
  | mkdirMeta
  | mkSubdirs (names : List String)
  | writeSettingsFile (d : Dict)
  | setLogFile
  | setLogLevel (consoleLevel fileLevel : Option YVal)
deriving Repr

/-- An abnormal termination of the running Python process: an unhandled
exception (`NameError` here, since `ask_user`, `logging` and `sys` are names
never imported by src/seal5/flow.py) makes the interpreter exit with status 1,
and `sys.exit(c)` exits with status `c`. -/
inductive PyAbort where
  | nameError (name : String)
  | sysExit (code : Nat)
deriving Repr, DecidableEq

/-- The fixed subdirectory layout created under `.seal5`
(src/seal5/flow.py:390). -/
def seal5Subdirs : List String :=
  ["deps", "models", "logs", "build", "install", "temp", "inputs", "gen"]

/-- Embedding of the `initialize` method of `Seal5Flow`
(src/seal5/flow.py:368-397), here named `initWorkspace`. Returns
the effects performed (in order) and, when the run aborts, the abnormal
termination. When the root is missing and `clone` is false, evaluating
`clone is False and not ask_user(...)` raises `NameError` (`ask_user` is an
unresolved name in the module), before any effect; with `clone` true the
`and` short-circuits and the repository is cloned. When `.seal5` exists and
`force` is false, `force is False and not ask_user(...)` likewise raises
`NameError` before `meta_dir.mkdir` runs; with `force` true it short-circuits.
On the success path the metadata directory and layout subdirectories are
created, `DEFAULT_SETTINGS` is persisted, and the log sinks are attached with
the levels read from the just-built settings. The `interactive` flag is never
reached (the `ask_user` call raises first), and `verbose` is unused. -/
def Seal5Flow.initWorkspace (fs : WorkFS) (_interactive clone : Bool)
    (clone_url clone_ref : Option String) (force : Bool) :
    List InitEffect × Option PyAbort :=
  if fs.rootIsDir = false && clone = false then
    ([], some (PyAbort.nameError "ask_user"))
  else
    let pre : List InitEffect :=
      if fs.rootIsDir = false then [InitEffect.cloneRepo clone_url clone_ref] else []
    if fs.metaIsDir && force = false then
      (pre, some (PyAbort.nameError "ask_user"))
    else
      (pre ++
        [InitEffect.mkdirMeta, InitEffect.mkSubdirs seal5Subdirs,
         InitEffect.writeSettingsFile DEFAULT_SETTINGS, InitEffect.setLogFile,
         InitEffect.setLogLevel (lookupPath DEFAULT_SETTINGS ["logging", "console", "level"])
           (lookupPath DEFAULT_SETTINGS ["logging", "file", "level"])],
       none)

/-- Apply one initialize effect to the probed filesystem state. -/
def applyInitEffect (fs : WorkFS) : InitEffect → WorkFS
  | .cloneRepo _ _ => { fs with rootIsDir := true }
  | .mkdirMeta => { fs with metaIsDir := true }
  | .mkSubdirs _ => { fs with logsDirIsDir := true }
  | .writeSettingsFile d => { fs with settingsFileData := some d }
  | .setLogFile => fs
  | .setLogLevel _ _ => fs

/-- Apply an initialize effect trace left to right. -/
def applyInitEffects (fs : WorkFS) (effs : List InitEffect) : WorkFS :=
  effs.foldl applyInitEffect fs

/-- Run the `initialize` method against a filesystem state: the resulting
filesystem together with the abnormal termination, if any. -/
def runInitialize (fs : WorkFS) (interactive clone : Bool)
    (clone_url clone_ref : Option String) (force : Bool) :
    WorkFS × Option PyAbort :=
  let r := Seal5Flow.initWorkspace fs interactive clone clone_url clone_ref force
  (applyInitEffects fs r.1, r.2)

/-- Process exit status of the `init` CLI command (src/seal5/cli/init.py:72-88)
for a given initialize outcome: 0 on normal completion, the `sys.exit` code
when one was requested, and 1 for an unhandled exception. -/
def initExitCode (r : List InitEffect × Option PyAbort) : Nat :=
  match r.2 with
  | none => 0
  | some (.nameError _) => 1
  | some (.sysExit c) => c

/-- A side effect performed by `Seal5Flow.load_cdsl`, in program order. -/
inductive LoadEffect where
  | copyFile (src dst : String)
  | parseCoreDSL (file outDir : String)
  | persistSettings (d : Dict)
deriving Repr

/-- Split a character list at every occurrence of one separator character. -/
def splitChar (sep : Char) : List Char → List (List Char)
  | [] => [[]]
  | c :: rest =>
    match splitChar sep rest with
    | [] => [[]]
    | seg :: segs => if c = sep then [] :: seg :: segs else (c :: seg) :: segs

/-- Whether `l` starts with `pat`. -/
def startsWith : List Char → List Char → Bool
  | [], _ => true
  | _ :: _, [] => false
  | p :: pat, c :: l => c = p && startsWith pat l

/-- The remainder after the first occurrence of `pat` (assumed nonempty),
`none` when `pat` does not occur. -/
def findSub (pat : List Char) : List Char → Option (List Char)
  | [] => none
  | c :: rest =>
    if startsWith pat (c :: rest) then some ((c :: rest).drop pat.length)
    else findSub pat rest

/-- The prefix before the last occurrence of `pat` (assumed nonempty), `none`
when `pat` does not occur. -/
def beforeLast (pat : List Char) : List Char → Option (List Char)
  | [] => none
  | c :: rest =>
    match beforeLast pat rest with
    | some seg => some (c :: seg)
    | none => if startsWith pat (c :: rest) then some [] else none

/-- Python `Path(p).name`: the component after the last `/` (file paths, so no
trailing separator). -/
def pathName (p : String) : String :=
  String.mk ((splitChar (Char.ofNat 47) p.data).getLastD p.data)

/-- Embedding of `Seal5Flow.load_cdsl(file, verbose=False, overwrite=False)`
(src/seal5/flow.py:425-437). `inputsDirFiles` are the file names present in the
inputs directory (so `dest.is_file()` is membership of `file.name` there) and
`fileExists` is `file.is_file()`. Effects in source order on success: copy the
file into the inputs directory, invoke the external CoreDSL parser on the
original file with the models directory as output target, and persist the
settings (whose `inputs` list has the file name appended) to the settings
file. When a same-named file is already loaded and `overwrite` is false, the
run raises `RuntimeError(f"File {filename} already loaded!")` with no effect
performed. When `settings.data["inputs"]` is not a list the `.append` call
would raise after the copy, which the trace records faithfully. -/
def Seal5Flow.load_cdsl (directory : String) (inputsDirFiles : List String)
    (settingsData : Dict) (fileExists : Bool) (file : String) (overwrite : Bool) :
    List LoadEffect × Except String Dict :=
  if fileExists = false then ([], .error "AssertionError: TODO")
  else
    let filename := pathName file
    let dest := inputsDirOf directory ++ "/" ++ filename
    if decide (filename ∈ inputsDirFiles) && !overwrite then
      ([], .error ("File " ++ filename ++ " already loaded!"))
    else
      match lookupY "inputs" settingsData with
      | some (.list xs) =>
        let newData := setY "inputs" (.list (xs ++ [.s filename])) settingsData
        ([LoadEffect.copyFile file dest,
          LoadEffect.parseCoreDSL file (modelsDirOf directory),
          LoadEffect.persistSettings newData],
         .ok newData)
      | _ => ([LoadEffect.copyFile file dest], .error "AttributeError: append")

/-- Scan one line of test-runner output the way
`re.compile(r"FAIL: LLVM :: (.*) \(").findall` does: the literals contain no
newline and `.` does not match one, so every match lies within a line; the
scan finds the first occurrence of `"FAIL: LLVM :: "` and the greedy `(.*)`
captures up to the last `" ("` after it on the line. -/
def scrapeLine (line : List Char) : Option String :=
  match findSub ("FAIL: LLVM :: ".data) line with
  | none => none
  | some after =>
    match beforeLast (" (".data) after with
    | none => none
    | some seg => some (String.mk seg)

/-- All failing test identifiers scraped from one runner output, in the order
they appear. -/
def findFailing (out : String) : List String :=
  (splitChar (Char.ofNat 10) out.data).filterMap scrapeLine

/-- Embedding of `test_llvm(base, build_dir, test_paths, verbose)`
(src/seal5/flow.py:82-101): run the external `llvm-lit` runner once per
configured test path (`outputs` holds the captured output of each invocation)
and concatenate the failing test names scraped from each output, preserving
order. -/
def test_llvm (outputs : List String) : List String :=
  (outputs.map findFailing).flatten

/-- Outcome of the test stage: the rendered `logger.error` message, when one
was emitted, and the message of the raised exception, when one was raised. -/
structure TestOutcome where
  errorLog : Option String
  raised : Option String
deriving Repr, DecidableEq

/-- Embedding of `Seal5Flow.test(debug=False, verbose=False,
ignore_error=False)` (src/seal5/flow.py:475-484): when the scraped failing
list is nonempty, `logger.error("%d tests failed: %s", len(failing_tests),
", ".join(failing_tests))` is emitted and, unless `ignore_error`,
`RuntimeError("Tests failed!")` is raised; otherwise the stage completes with
neither. -/
def Seal5Flow.test (outputs : List String) (ignore_error : Bool) : TestOutcome :=
  let failing_tests := test_llvm outputs
  if failing_tests.length > 0 then
    { errorLog := some (toString failing_tests.length ++ " tests failed: " ++
        String.intercalate ", " failing_tests),
      raised := if ignore_error then none else some "Tests failed!" }
  else
    { errorLog := none, raised := none }

/-- A text filesystem: file path to file content. -/
abbrev FileMap := List (String × String)

/-- Write (create or overwrite) a file. -/
def writeTextFile (fs : FileMap) (path text : String) : FileMap :=
  match fs with
  | [] => [(path, text)]
  | (p, t) :: rest =>
    if p = path then (path, text) :: rest else (p, t) :: writeTextFile rest path text

/-- Read a file, `none` when it does not exist (Python `open` raising). -/
def readTextFile (fs : FileMap) (path : String) : Option String :=
  match fs with
  | [] => none
  | (p, t) :: rest => if p = path then some t else readTextFile rest path

/-- The external YAML library (`import yaml`), modelled by its interface:
`dump` renders a tree to text and `load` (`yaml.safe_load`) parses text back,
`none` on a parse failure or a non-mapping document. -/
structure ExtYaml where
  dump : Dict → String
  load : String → Option Dict

/-- Embedding of `YAMLSettings.to_yaml` (src/seal5/flow.py:200-203):
`yaml.dump(self.data)`. -/
def YAMLSettings.to_yaml (ext : ExtYaml) (s : YAMLSettings) : String :=
  ext.dump s.data

/-- Embedding of `YAMLSettings.to_yaml_file(path)` (src/seal5/flow.py:205-208):
write the dumped text to the file. -/
def YAMLSettings.to_yaml_file (ext : ExtYaml) (s : YAMLSettings) (path : String)
    (fs : FileMap) : FileMap :=
  writeTextFile fs path (YAMLSettings.to_yaml ext s)

/-- Embedding of `YAMLSettings.from_yaml_file(path)`
(src/seal5/flow.py:190-194): read the file, `yaml.safe_load` its text, and
wrap the data in a settings object (`validate` always succeeds). -/
def YAMLSettings.from_yaml_file (ext : ExtYaml) (path : String) (fs : FileMap) :
    Option YAMLSettings :=
  match readTextFile fs path with
  | none => none
  | some text =>
    match ext.load text with
    | none => none
    | some d => some ⟨d⟩

/-- Trees `a` and `b` have no overlapping leaf key: every dotted path that
resolves in both trees is an interior (dict) node of both, so no path is a
leaf of one tree while also being present in the other. -/
def noLeafOverlap (a b : Dict) : Prop :=
  ∀ p va vb, lookupPath a p = some va → lookupPath b p = some vb →
    isDict va = true ∧ isDict vb = true

/-- The option mapping of the default `release` build configuration. -/
def releaseOptions : Dict :=
  [("CMAKE_BUILD_TYPE", .s "Release"),
   ("LLVM_BUILD_TOOLS", .b true),
   ("LLVM_ENABLE_ASSERTIONS", .b false),
   ("LLVM_OPTIMIZED_TABLEGEN", .b true),
   ("LLVM_ENABLE_PROJECTS", .list [.s "clang", .s "lld"]),
   ("LLVM_TARGETS_TO_BUILD", .list [.s "X86", .s "RISCV"])]

/-- What merging `B` into `A` without overwrite guarantees when `A` and `B`
share a conflicting path: the merge fails with a conflict error whose message
names the full dotted path of a genuinely conflicting shared leaf key (hence
exactly the shared key when it is unique), while merging with overwrite
succeeds and replaces the top-level keys of `A` coming from `B` wholesale,
leaving the others untouched. -/
def ConflictOverwriteConcl (a b : Dict) (p : List String) : Prop :=
  (∃ q, conflictPath a b q ∧
    YAMLSettings.merge ⟨a⟩ ⟨b⟩ false =
      .error ("Conflict at " ++ String.intercalate "." q)) ∧
  ((∀ q, conflictPath a b q → q = p) →
    YAMLSettings.merge ⟨a⟩ ⟨b⟩ false =
      .error ("Conflict at " ++ String.intercalate "." p)) ∧
  YAMLSettings.merge ⟨a⟩ ⟨b⟩ true = .ok ⟨updateDict a b⟩ ∧
  (∀ k v, lookupY k b = some v → lookupY k (updateDict a b) = some v) ∧
  (∀ k, lookupY k b = none → lookupY k (updateDict a b) = lookupY k a)

/-- What merging disjoint trees guarantees: success, and the result's leaves
are exactly the union of both trees' leaves, each with the value contributed
by its source tree. -/
def DisjointMergeConcl (a b : Dict) : Prop :=
  ∃ c, YAMLSettings.merge ⟨a⟩ ⟨b⟩ false = .ok ⟨c⟩ ∧
    (∀ p v, leafAt a p v → leafAt c p v) ∧
    (∀ p v, leafAt b p v → leafAt c p v) ∧
    (∀ p v, leafAt c p v → leafAt a p v ∨ leafAt b p v)

/-- What `load_cdsl` guarantees for a file that exists, given the current
inputs-directory contents and a settings tree whose `inputs` entry is the list
`xs`: with a same-named file already loaded and `overwrite` false it raises
`File <name> already loaded!` having performed no effect; otherwise it copies
the file into the inputs directory, invokes the external parser on the
original file with the models directory as output target, and persists the
settings — whose `inputs` list now has the file's name appended — strictly
after the copy, as the trace order shows. -/
def LoadCdslConcl (directory : String) (files : List String) (data : Dict)
    (file : String) (xs : List YVal) : Prop :=
  (∀ overwrite : Bool, pathName file ∈ files → overwrite = false →
    Seal5Flow.load_cdsl directory files data true file overwrite =
      ([], .error ("File " ++ pathName file ++ " already loaded!"))) ∧
  (∀ overwrite : Bool, (pathName file ∉ files ∨ overwrite = true) →
    Seal5Flow.load_cdsl directory files data true file overwrite =
      ([LoadEffect.copyFile file (inputsDirOf directory ++ "/" ++ pathName file),
        LoadEffect.parseCoreDSL file (modelsDirOf directory),
        LoadEffect.persistSettings
          (setY "inputs" (.list (xs ++ [.s (pathName file)])) data)],
       .ok (setY "inputs" (.list (xs ++ [.s (pathName file)])) data))) ∧
  lookupY "inputs" (setY "inputs" (.list (xs ++ [.s (pathName file)])) data) =
    some (.list (xs ++ [.s (pathName file)]))

/-- What the test stage does when the scraped failing list is nonempty: it
logs one error message naming the count and every failing identifier in output
order, and raises `Tests failed!` unless `ignore_error` is set, in which case
it completes normally with the same log line. -/
def TestStageConcl (outputs : List String) : Prop :=
  Seal5Flow.test outputs false =
    { errorLog := some (toString (test_llvm outputs).length ++ " tests failed: " ++
        String.intercalate ", " (test_llvm outputs)),
      raised := some "Tests failed!" } ∧
  Seal5Flow.test outputs true =
    { errorLog := some (toString (test_llvm outputs).length ++ " tests failed: " ++
        String.intercalate ", " (test_llvm outputs)),
      raised := none }

/-- What a save/load round trip guarantees: reading the settings file just
written yields a settings object whose tree is Python-equal to the saved one. -/
def RoundTripConcl (ext : ExtYaml) (s : YAMLSettings) (path : String)
    (fs : FileMap) : Prop :=
  ∃ r, YAMLSettings.from_yaml_file ext path (YAMLSettings.to_yaml_file ext s path fs) =
      some r ∧ pyEq (.dict r.data) (.dict s.data) = true

/-- A workspace filesystem whose root, metadata directory, settings file and
logs directory all exist, as after a completed `initialize`. -/
def initializedFS : WorkFS :=
  { rootIsDir := true, metaIsDir := true,
    settingsFileData := some DEFAULT_SETTINGS, logsDirIsDir := true }

/-- A captured `llvm-lit` output with two failing tests. -/
def litOutTwoFails : String :=
  "-- Testing: 2 tests --\nFAIL: LLVM :: MC/RISCV/seal-a.s (1 of 2)\nFAIL: LLVM :: MC/RISCV/seal-b.s (2 of 2)\nFailed Tests (2)"

/-- A settings tree conflicting with `cfB` at `llvm.ninja`. -/
def cfA : Dict := [("llvm", .dict [("ninja", .b false)]), ("keep", .i 1)]

/-- A settings tree conflicting with `cfA` at `llvm.ninja`. -/
def cfB : Dict := [("llvm", .dict [("ninja", .b true)]), ("new", .s "x")]

/-- A settings tree with leaf keys disjoint from `djB`. -/
def djA : Dict := [("x", .i 1)]

/-- A settings tree with leaf keys disjoint from `djA`. -/
def djB : Dict := [("y", .i 2)]

/-- A base tree for the idempotence example. -/
def idA : Dict := [("x", .i 1)]

/-- An incoming tree for the idempotence example: one equal leaf, one new. -/
def idB : Dict := [("x", .i 1), ("y", .s "v")]

/-- The merge of `idB` into `idA`. -/
def idC : Dict := [("x", .i 1), ("y", .s "v")]

/-- A workspace filesystem with the root present but no metadata directory. -/
def uninitFS : WorkFS :=
  { rootIsDir := true, metaIsDir := false, settingsFileData := none,
    logsDirIsDir := false }

/-- A toy external YAML library that round-trips the one-entry tree used in
the persistence witness. -/
def extYamlEx : ExtYaml :=
  { dump := fun _ => "a: 1\n", load := fun _ => some [("a", .i 1)] }

/-- The settings object used in the persistence witness. -/
def settingsEx : YAMLSettings := ⟨[("a", .i 1)]⟩

/-- In a distinct-keyed dict, every entry is found by lookup. -/
def lookup_of_mem_distinct : ∀ (d : Dict) (k : String) (v : YVal),
    distinctKeys d = true → (k, v) ∈ d → lookupY k d = some v := by
  intro d
  induction d with
  | nil => intro k v _ hm; cases hm
  | cons kv rest ih =>
    intro k v hd hm
    obtain ⟨k2, w⟩ := kv
    rw [distinctKeys] at hd
    obtain ⟨h1, h2⟩ := Bool.and_eq_true_iff.mp hd
    cases hm with
    | head => simp [lookupY]
    | tail _ hm2 =>
      have hne : k2 ≠ k := by
        intro he
        rw [he, ih k v h2 hm2] at h1
        simp at h1
      simpa [lookupY, hne] using ih k v h2 hm2

mutual
/-- Python equality is reflexive on well-formed values (a dict with duplicate
keys could compare unequal to itself in the embedding, but Python cannot build
one). -/
def pyEq_refl : ∀ (v : YVal), wfY v = true → pyEq v v = true
  | .s x, _ => by rw [pyEq]; simp
  | .i x, _ => by rw [pyEq]; simp
  | .b x, _ => by rw [pyEq]; simp
  | .null, _ => by rw [pyEq]
  | .list xs, h => by
    rw [pyEq]
    rw [wfY] at h
    exact pyEqList_refl xs h
  | .dict d, h => by
    rw [pyEq]
    rw [wfY] at h
    obtain ⟨h1, h2⟩ := Bool.and_eq_true_iff.mp h
    refine Bool.and_eq_true_iff.mpr ⟨by simp, ?_⟩
    exact pyEqEntries_refl d d (fun k v hm => lookup_of_mem_distinct d k v h1 hm) h2
termination_by v _ => sizeOf v

/-- Reflexivity of pointwise Python equality on lists of well-formed values. -/
def pyEqList_refl : ∀ (xs : List YVal), wfYList xs = true → pyEqList xs xs = true
  | [], _ => by rw [pyEqList]
  | x :: rest, h => by
    rw [pyEqList]
    rw [wfYList] at h
    obtain ⟨h1, h2⟩ := Bool.and_eq_true_iff.mp h
    exact Bool.and_eq_true_iff.mpr ⟨pyEq_refl x h1, pyEqList_refl rest h2⟩
termination_by xs _ => sizeOf xs

/-- Each well-formed entry of `sub` that `full` holds verbatim is
`pyEq`-matched by `full`. -/
def pyEqEntries_refl : ∀ (sub full : List (String × YVal)),
    (∀ k v, (k, v) ∈ sub → lookupY k full = some v) → wfYEntries sub = true →
    pyEqEntries sub full = true
  | [], _, _, _ => by rw [pyEqEntries]
  | (k, v) :: rest, full, hmem, hwf => by
    rw [pyEqEntries]
    rw [wfYEntries] at hwf
    obtain ⟨h1, h2⟩ := Bool.and_eq_true_iff.mp hwf
    have hl : lookupY k full = some v := hmem k v (List.mem_cons_self _ _)
    rw [hl]
    exact Bool.and_eq_true_iff.mpr ⟨pyEq_refl v h1,
      pyEqEntries_refl rest full (fun k2 v2 hm => hmem k2 v2 (List.mem_cons_of_mem _ hm)) h2⟩
termination_by sub _ _ _ => sizeOf sub
end

theorem lookupY_cons_self (k : String) (v : YVal) (rest : Dict) :
    lookupY k ((k, v) :: rest) = some v := by
  simp [lookupY]

theorem lookupY_cons_ne (k k2 : String) (w : YVal) (rest : Dict) (h : k ≠ k2) :
    lookupY k ((k2, w) :: rest) = lookupY k rest := by
  simp [lookupY, Ne.symm h]

theorem lookupY_setY_self (k : String) (v : YVal) (d : Dict) :
    lookupY k (setY k v d) = some v := by
  induction d with
  | nil => simp [setY, lookupY]
  | cons kv rest ih =>
    obtain ⟨k2, w⟩ := kv
    by_cases h : k2 = k
    · simp [setY, h, lookupY]
    · simp [setY, h, lookupY, ih]

theorem lookupY_setY_ne (k k2 : String) (v : YVal) (d : Dict) (h : k ≠ k2) :
    lookupY k (setY k2 v d) = lookupY k d := by
  induction d with
  | nil => simp [setY, lookupY, Ne.symm h]
  | cons kv rest ih =>
    obtain ⟨k3, w⟩ := kv
    by_cases h3 : k3 = k2
    · subst h3
      simp [setY, lookupY, Ne.symm h]
    · simp [setY, h3, lookupY, ih]

theorem setY_eq_of_lookup (k : String) (v : YVal) (d : Dict)
    (h : lookupY k d = some v) : setY k v d = d := by
  induction d with
  | nil => simp [lookupY] at h
  | cons kv rest ih =>
    obtain ⟨k2, w⟩ := kv
    by_cases h2 : k2 = k
    · subst h2
      simp [lookupY] at h
      simp [setY, h]
    · simp [lookupY, h2] at h
      simp [setY, h2, ih h]

theorem lookupPath_nil (d : Dict) : lookupPath d [] = some (.dict d) := rfl

theorem lookupPath_single (d : Dict) (k : String) :
    lookupPath d [k] = lookupY k d := by
  cases h : lookupY k d with
  | none => simp [lookupPath, h]
  | some v => simp [lookupPath, h]

theorem lookupPath_cons_dict (d d2 : Dict) (k : String) (p : List String)
    (h : lookupY k d = some (.dict d2)) (hp : p ≠ []) :
    lookupPath d (k :: p) = lookupPath d2 p := by
  cases p with
  | nil => exact absurd rfl hp
  | cons k2 rest => simp [lookupPath, h]

theorem lookupPath_cons_none (d : Dict) (k : String) (p : List String)
    (h : lookupY k d = none) : lookupPath d (k :: p) = none := by
  cases p <;> simp [lookupPath, h]

theorem lookupPath_cons_nondict (d : Dict) (k : String) (v : YVal)
    (p : List String) (h : lookupY k d = some v) (hv : isDict v = false)
    (hp : p ≠ []) : lookupPath d (k :: p) = none := by
  cases p with
  | nil => exact absurd rfl hp
  | cons k2 rest =>
    cases v with
    | dict d2 => simp [isDict] at hv
    | s x => simp [lookupPath, h]
    | i x => simp [lookupPath, h]
    | b x => simp [lookupPath, h]
    | null => simp [lookupPath, h]
    | list xs => simp [lookupPath, h]

theorem lookupPath_setY_ne (d : Dict) (k k2 : String) (v : YVal)
    (p : List String) (h : k ≠ k2) :
    lookupPath (setY k2 v d) (k :: p) = lookupPath d (k :: p) := by
  cases p <;> simp [lookupPath, lookupY_setY_ne k k2 v d h]

theorem wf_dict_distinct (d : Dict) (h : wfY (.dict d) = true) :
    distinctKeys d = true := by
  rw [wfY] at h
  exact (Bool.and_eq_true_iff.mp h).1

theorem wf_dict_entries (d : Dict) (h : wfY (.dict d) = true) :
    wfYEntries d = true := by
  rw [wfY] at h
  exact (Bool.and_eq_true_iff.mp h).2

theorem wf_dict_head_val (k : String) (v : YVal) (rest : Dict)
    (h : wfY (.dict ((k, v) :: rest)) = true) : wfY v = true := by
  have h2 := wf_dict_entries _ h
  rw [wfYEntries] at h2
  exact (Bool.and_eq_true_iff.mp h2).1

theorem wf_dict_head_notin (k : String) (v : YVal) (rest : Dict)
    (h : wfY (.dict ((k, v) :: rest)) = true) : lookupY k rest = none := by
  have h2 := wf_dict_distinct _ h
  rw [distinctKeys] at h2
  have := (Bool.and_eq_true_iff.mp h2).1
  exact Option.isNone_iff_eq_none.mp this

theorem wf_dict_tail (k : String) (v : YVal) (rest : Dict)
    (h : wfY (.dict ((k, v) :: rest)) = true) : wfY (.dict rest) = true := by
  have hd := wf_dict_distinct _ h
  have he := wf_dict_entries _ h
  rw [distinctKeys] at hd
  rw [wfYEntries] at he
  rw [wfY]
  exact Bool.and_eq_true_iff.mpr
    ⟨(Bool.and_eq_true_iff.mp hd).2, (Bool.and_eq_true_iff.mp he).2⟩

theorem pyEq_dict_right (w : YVal) (d : Dict) (h : pyEq w (.dict d) = true) :
    ∃ d2, w = YVal.dict d2 := by
  cases w with
  | dict d2 => exact ⟨d2, rfl⟩
  | s x => simp [pyEq] at h
  | i x => simp [pyEq] at h
  | b x => simp [pyEq] at h
  | null => simp [pyEq] at h
  | list xs => simp [pyEq] at h

theorem pyEq_dict_left (d : Dict) (w : YVal) (h : pyEq (.dict d) w = true) :
    ∃ d2, w = YVal.dict d2 := by
  cases w with
  | dict d2 => exact ⟨d2, rfl⟩
  | s x => simp [pyEq] at h
  | i x => simp [pyEq] at h
  | b x => simp [pyEq] at h
  | null => simp [pyEq] at h
  | list xs => simp [pyEq] at h

theorem lookupY_cons_none (k key : String) (v : YVal) (rest : Dict)
    (h : lookupY k ((key, v) :: rest) = none) :
    k ≠ key ∧ lookupY k rest = none := by
  by_cases hk : key = k
  · subst hk; simp [lookupY] at h
  · exact ⟨fun he => hk he.symm, by simpa [lookupY, hk] using h⟩

theorem not_both_dict (w v : YVal)
    (hnd : ∀ (ad bd : List (String × YVal)),
      w = YVal.dict ad → v = YVal.dict bd → False) :
    (isDict w && isDict v) = false := by
  cases w <;> cases v <;>
    first
      | (simp [isDict]; done)
      | (simp only [isDict, Bool.and_self]; exact (hnd _ _ rfl rfl).elim)

theorem merge_dicts_nil (a : Dict) (path : List String) :
    merge_dicts a [] path = Except.ok a := by
  rw [merge_dicts.eq_def]

theorem merge_dicts_cons_recurse (a : Dict) (key : String) (ad bd : Dict)
    (rest : Dict) (path : List String) (h2 : lookupY key a = some (.dict ad)) :
    merge_dicts a ((key, .dict bd) :: rest) path =
      match merge_dicts ad bd (path ++ [key]) with
      | .error e => .error e
      | .ok merged => merge_dicts (setY key (.dict merged) a) rest path := by
  rw [merge_dicts.eq_def]; simp [h2]

theorem merge_dicts_cons_skip (a : Dict) (key : String) (av bv : YVal)
    (rest : Dict) (path : List String) (h2 : lookupY key a = some av)
    (hnd : (isDict av && isDict bv) = false) (hpe : pyEq av bv = true) :
    merge_dicts a ((key, bv) :: rest) path = merge_dicts a rest path := by
  cases av <;> cases bv <;>
    first
      | (rw [merge_dicts.eq_def]; simp [h2, hpe]; done)
      | simp [isDict] at hnd

theorem merge_dicts_cons_conflict (a : Dict) (key : String) (av bv : YVal)
    (rest : Dict) (path : List String) (h2 : lookupY key a = some av)
    (hnd : (isDict av && isDict bv) = false) (hpe : pyEq av bv = false) :
    merge_dicts a ((key, bv) :: rest) path =
      Except.error ("Conflict at " ++ String.intercalate "." (path ++ [key])) := by
  cases av <;> cases bv <;>
    first
      | (rw [merge_dicts.eq_def]; simp [h2, hpe]; done)
      | simp [isDict] at hnd

theorem merge_dicts_cons_new (a : Dict) (key : String) (bv : YVal)
    (rest : Dict) (path : List String) (h2 : lookupY key a = none) :
    merge_dicts a ((key, bv) :: rest) path =
      merge_dicts (setY key bv a) rest path := by
  rw [merge_dicts.eq_def]; simp [h2]

theorem merge_ok_lookup_notin (a b : Dict) (path : List String) :
    ∀ c, merge_dicts a b path = Except.ok c →
      ∀ k, lookupY k b = none → lookupY k c = lookupY k a := by
  induction a, b, path using merge_dicts.induct with
  | case1 a path =>
    intro c hc k _
    rw [merge_dicts_nil] at hc
    cases hc
    rfl
  | case2 a path key rest ad bd e h1 h2 ih =>
    intro c hc k hk
    rw [merge_dicts_cons_recurse a key ad bd rest path h2, h1] at hc
    cases hc
  | case3 a path key rest ad bd merged h1 h2 ih1 ih2 =>
    intro c hc k hk
    rw [merge_dicts_cons_recurse a key ad bd rest path h2, h1] at hc
    obtain ⟨hkk, hkr⟩ := lookupY_cons_none k key (.dict bd) rest hk
    rw [ih2 c hc k hkr, lookupY_setY_ne k key _ a hkk]
  | case4 a path key v rest w h2 hpe hnd ih =>
    intro c hc k hk
    obtain ⟨hkk, hkr⟩ := lookupY_cons_none k key v rest hk
    rw [merge_dicts_cons_skip a key w v rest path h2 (not_both_dict w v hnd) hpe] at hc
    exact ih c hc k hkr
  | case5 a path key v rest w h2 hpe hnd =>
    intro c hc k hk
    rw [merge_dicts_cons_conflict a key w v rest path h2 (not_both_dict w v hnd)
      (Bool.eq_false_iff.mpr hpe)] at hc
    cases hc
  | case6 a path key v rest h2 ih =>
    intro c hc k hk
    obtain ⟨hkk, hkr⟩ := lookupY_cons_none k key v rest hk
    rw [merge_dicts_cons_new a key v rest path h2] at hc
    rw [ih c hc k hkr, lookupY_setY_ne k key v a hkk]

theorem lookupPath_cons_tail (key : String) (w : YVal) (rest : Dict)
    (k : String) (p : List String) (hk : k ≠ key) :
    lookupPath ((key, w) :: rest) (k :: p) = lookupPath rest (k :: p) := by
  cases p <;> simp [lookupPath, lookupY_cons_ne k key w rest hk]

theorem conflictPath_nil_false (a b : Dict) : ¬ conflictPath a b [] := by
  rintro ⟨va, vb, ha, hb, hnd, -⟩
  rw [lookupPath_nil] at ha hb
  cases ha; cases hb
  simp [isDict] at hnd

theorem merge_error_of_conflict (a b : Dict) (path : List String) :
    ∀ p, conflictPath a b p → ∃ e, merge_dicts a b path = Except.error e := by
  induction a, b, path using merge_dicts.induct with
  | case1 a path =>
    intro p hp
    obtain ⟨va, vb, ha, hb, hnd, hne⟩ := hp
    cases p with
    | nil => exact absurd ⟨va, vb, ha, hb, hnd, hne⟩ (conflictPath_nil_false _ _)
    | cons k p2 =>
      rw [lookupPath_cons_none [] k p2 rfl] at hb
      cases hb
  | case2 a path key rest ad bd e h1 h2 ih =>
    intro p hp
    exact ⟨e, by rw [merge_dicts_cons_recurse a key ad bd rest path h2, h1]⟩
  | case3 a path key rest ad bd merged h1 h2 ih1 ih2 =>
    intro p hp
    rw [merge_dicts_cons_recurse a key ad bd rest path h2, h1]
    obtain ⟨va, vb, ha, hb, hnd, hne⟩ := hp
    cases p with
    | nil => exact absurd ⟨va, vb, ha, hb, hnd, hne⟩ (conflictPath_nil_false _ _)
    | cons k p2 =>
      by_cases hk : k = key
      · subst hk
        cases p2 with
        | nil =>
          rw [lookupPath_single, lookupY_cons_self] at hb
          cases hb
          rw [lookupPath_single, h2] at ha
          cases ha
          simp [isDict] at hnd
        | cons k3 p3 =>
          rw [lookupPath_cons_dict a ad k (k3 :: p3) h2 (by simp)] at ha
          rw [lookupPath_cons_dict _ bd k (k3 :: p3)
            (lookupY_cons_self k (.dict bd) rest) (by simp)] at hb
          obtain ⟨e0, he0⟩ := ih1 (k3 :: p3) ⟨va, vb, ha, hb, hnd, hne⟩
          rw [h1] at he0
          cases he0
      · have hb2 : lookupPath rest (k :: p2) = some vb := by
          rw [← lookupPath_cons_tail key (.dict bd) rest k p2 hk]
          exact hb
        have ha2 : lookupPath (setY key (.dict merged) a) (k :: p2) = some va := by
          rw [lookupPath_setY_ne a k key _ p2 hk]
          exact ha
        exact ih2 (k :: p2) ⟨va, vb, ha2, hb2, hnd, hne⟩
  | case4 a path key v rest w h2 hpe hnd ih =>
    intro p hp
    rw [merge_dicts_cons_skip a key w v rest path h2 (not_both_dict w v hnd) hpe]
    obtain ⟨va, vb, ha, hb, hnd2, hne⟩ := hp
    cases p with
    | nil => exact absurd ⟨va, vb, ha, hb, hnd2, hne⟩ (conflictPath_nil_false _ _)
    | cons k p2 =>
      by_cases hk : k = key
      · subst hk
        cases p2 with
        | nil =>
          rw [lookupPath_single, lookupY_cons_self] at hb
          cases hb
          rw [lookupPath_single, h2] at ha
          cases ha
          rw [hpe] at hne
          exact Bool.noConfusion hne
        | cons k3 p3 =>
          have hvd : ∃ bd, v = YVal.dict bd := by
            cases hv : v with
            | dict bd => exact ⟨bd, rfl⟩
            | s x =>
              subst hv
              rw [lookupPath_cons_nondict _ k (.s x) _
                (lookupY_cons_self k (.s x) rest) rfl (by simp)] at hb
              cases hb
            | i x =>
              subst hv
              rw [lookupPath_cons_nondict _ k (.i x) _
                (lookupY_cons_self k (.i x) rest) rfl (by simp)] at hb
              cases hb
            | b x =>
              subst hv
              rw [lookupPath_cons_nondict _ k (.b x) _
                (lookupY_cons_self k (.b x) rest) rfl (by simp)] at hb
              cases hb
            | null =>
              subst hv
              rw [lookupPath_cons_nondict _ k .null _
                (lookupY_cons_self k .null rest) rfl (by simp)] at hb
              cases hb
            | list xs =>
              subst hv
              rw [lookupPath_cons_nondict _ k (.list xs) _
                (lookupY_cons_self k (.list xs) rest) rfl (by simp)] at hb
              cases hb
          obtain ⟨bd, rfl⟩ := hvd
          obtain ⟨ad, rfl⟩ := pyEq_dict_right w bd hpe
          exact (hnd ad bd rfl rfl).elim
      · have hb2 : lookupPath rest (k :: p2) = some vb := by
          rw [← lookupPath_cons_tail key v rest k p2 hk]
          exact hb
        exact ih (k :: p2) ⟨va, vb, ha, hb2, hnd2, hne⟩
  | case5 a path key v rest w h2 hpe hnd =>
    intro p hp
    exact ⟨_, merge_dicts_cons_conflict a key w v rest path h2
      (not_both_dict w v hnd) (Bool.eq_false_iff.mpr hpe)⟩
  | case6 a path key v rest h2 ih =>
    intro p hp
    rw [merge_dicts_cons_new a key v rest path h2]
    obtain ⟨va, vb, ha, hb, hnd2, hne⟩ := hp
    cases p with
    | nil => exact absurd ⟨va, vb, ha, hb, hnd2, hne⟩ (conflictPath_nil_false _ _)
    | cons k p2 =>
      by_cases hk : k = key
      · subst hk
        rw [lookupPath_cons_none a k p2 h2] at ha
        cases ha
      · have hb2 : lookupPath rest (k :: p2) = some vb := by
          rw [← lookupPath_cons_tail key v rest k p2 hk]
          exact hb
        have ha2 : lookupPath (setY key v a) (k :: p2) = some va := by
          rw [lookupPath_setY_ne a k key v p2 hk]
          exact ha
        exact ih (k :: p2) ⟨va, vb, ha2, hb2, hnd2, hne⟩

theorem confl_head_ne (key : String) (v : YVal) (rest : Dict)
    (hwf : wfY (.dict ((key, v) :: rest)) = true) (k : String)
    (q2 : List String) (vb : YVal) (hqb : lookupPath rest (k :: q2) = some vb) :
    k ≠ key := by
  intro hkk
  subst hkk
  rw [lookupPath_cons_none rest k q2 (wf_dict_head_notin k v rest hwf)] at hqb
  cases hqb

theorem merge_error_names_conflict (a b : Dict) (path : List String) :
    wfY (.dict b) = true → ∀ e, merge_dicts a b path = Except.error e →
      ∃ q, conflictPath a b q ∧
        e = "Conflict at " ++ String.intercalate "." (path ++ q) := by
  induction a, b, path using merge_dicts.induct with
  | case1 a path =>
    intro _ e he
    rw [merge_dicts_nil] at he
    cases he
  | case2 a path key rest ad bd e0 h1 h2 ih =>
    intro hwf e he
    rw [merge_dicts_cons_recurse a key ad bd rest path h2, h1] at he
    cases he
    obtain ⟨q, hq, heq⟩ := ih (wf_dict_head_val key (.dict bd) rest hwf) e0 h1
    have hqnil : q ≠ [] := by
      intro h
      subst h
      exact conflictPath_nil_false ad bd hq
    obtain ⟨va, vb, hqa, hqb, hqnd, hqne⟩ := hq
    refine ⟨key :: q, ⟨va, vb, ?_, ?_, hqnd, hqne⟩, ?_⟩
    · rw [lookupPath_cons_dict a ad key q h2 hqnil]
      exact hqa
    · rw [lookupPath_cons_dict _ bd key q
        (lookupY_cons_self key (.dict bd) rest) hqnil]
      exact hqb
    · rw [heq]
      simp
  | case3 a path key rest ad bd merged h1 h2 ih1 ih2 =>
    intro hwf e he
    rw [merge_dicts_cons_recurse a key ad bd rest path h2, h1] at he
    obtain ⟨q, hq, heq⟩ := ih2 (wf_dict_tail key (.dict bd) rest hwf) e he
    obtain ⟨va, vb, hqa, hqb, hqnd, hqne⟩ := hq
    cases q with
    | nil => exact absurd ⟨va, vb, hqa, hqb, hqnd, hqne⟩ (conflictPath_nil_false _ _)
    | cons k q2 =>
      have hk : k ≠ key := confl_head_ne key (.dict bd) rest hwf k q2 vb hqb
      refine ⟨k :: q2, ⟨va, vb, ?_, ?_, hqnd, hqne⟩, heq⟩
      · rw [← lookupPath_setY_ne a k key (.dict merged) q2 hk]
        exact hqa
      · rw [lookupPath_cons_tail key (.dict bd) rest k q2 hk]
        exact hqb
  | case4 a path key v rest w h2 hpe hnd ih =>
    intro hwf e he
    rw [merge_dicts_cons_skip a key w v rest path h2 (not_both_dict w v hnd) hpe] at he
    obtain ⟨q, hq, heq⟩ := ih (wf_dict_tail key v rest hwf) e he
    obtain ⟨va, vb, hqa, hqb, hqnd, hqne⟩ := hq
    cases q with
    | nil => exact absurd ⟨va, vb, hqa, hqb, hqnd, hqne⟩ (conflictPath_nil_false _ _)
    | cons k q2 =>
      have hk : k ≠ key := confl_head_ne key v rest hwf k q2 vb hqb
      refine ⟨k :: q2, ⟨va, vb, hqa, ?_, hqnd, hqne⟩, heq⟩
      rw [lookupPath_cons_tail key v rest k q2 hk]
      exact hqb
  | case5 a path key v rest w h2 hpe hnd =>
    intro hwf e he
    rw [merge_dicts_cons_conflict a key w v rest path h2 (not_both_dict w v hnd)
      (Bool.eq_false_iff.mpr hpe)] at he
    cases he
    refine ⟨[key], ⟨w, v, ?_, ?_, not_both_dict w v hnd, Bool.eq_false_iff.mpr hpe⟩, rfl⟩
    · rw [lookupPath_single]
      exact h2
    · rw [lookupPath_single]
      exact lookupY_cons_self key v rest
  | case6 a path key v rest h2 ih =>
    intro hwf e he
    rw [merge_dicts_cons_new a key v rest path h2] at he
    obtain ⟨q, hq, heq⟩ := ih (wf_dict_tail key v rest hwf) e he
    obtain ⟨va, vb, hqa, hqb, hqnd, hqne⟩ := hq
    cases q with
    | nil => exact absurd ⟨va, vb, hqa, hqb, hqnd, hqne⟩ (conflictPath_nil_false _ _)
    | cons k q2 =>
      have hk : k ≠ key := confl_head_ne key v rest hwf k q2 vb hqb
      refine ⟨k :: q2, ⟨va, vb, ?_, ?_, hqnd, hqne⟩, heq⟩
      · rw [← lookupPath_setY_ne a k key v q2 hk]
        exact hqa
      · rw [lookupPath_cons_tail key v rest k q2 hk]
        exact hqb

theorem isDict_eq_of_pyEq (w v : YVal) (h : pyEq w v = true) :
    isDict w = isDict v := by
  cases w <;> cases v <;> first | rfl | simp [pyEq] at h

theorem lookupPath_cons_cons_dict (key : String) (v : YVal) (rest : Dict)
    (k3 : String) (p3 : List String) (vb : YVal)
    (hb : lookupPath ((key, v) :: rest) (key :: k3 :: p3) = some vb) :
    ∃ bd, v = YVal.dict bd ∧ lookupPath bd (k3 :: p3) = some vb := by
  cases v with
  | dict bd =>
    refine ⟨bd, rfl, ?_⟩
    rw [← lookupPath_cons_dict _ bd key _ (lookupY_cons_self key _ rest) (by simp)]
    exact hb
  | s x =>
    rw [lookupPath_cons_nondict _ key (.s x) _ (lookupY_cons_self key _ rest) rfl (by simp)] at hb
    cases hb
  | i x =>
    rw [lookupPath_cons_nondict _ key (.i x) _ (lookupY_cons_self key _ rest) rfl (by simp)] at hb
    cases hb
  | b x =>
    rw [lookupPath_cons_nondict _ key (.b x) _ (lookupY_cons_self key _ rest) rfl (by simp)] at hb
    cases hb
  | null =>
    rw [lookupPath_cons_nondict _ key .null _ (lookupY_cons_self key _ rest) rfl (by simp)] at hb
    cases hb
  | list xs =>
    rw [lookupPath_cons_nondict _ key (.list xs) _ (lookupY_cons_self key _ rest) rfl (by simp)] at hb
    cases hb

theorem wf_lookupY (d : Dict) (k : String) (v : YVal)
    (hwf : wfY (.dict d) = true) (h : lookupY k d = some v) : wfY v = true := by
  induction d with
  | nil => simp [lookupY] at h
  | cons kv rest ih =>
    obtain ⟨k2, w⟩ := kv
    by_cases hk : k2 = k
    · subst hk
      rw [lookupY_cons_self] at h
      cases h
      exact wf_dict_head_val k2 _ rest hwf
    · rw [lookupY_cons_ne k k2 w rest (fun he => hk he.symm)] at h
      exact ih (wf_dict_tail k2 w rest hwf) h

theorem wf_lookupPath (p : List String) (d : Dict) (v : YVal)
    (hwf : wfY (.dict d) = true) (h : lookupPath d p = some v) : wfY v = true := by
  induction p generalizing d v with
  | nil =>
    rw [lookupPath_nil] at h
    cases h
    exact hwf
  | cons k p2 ih =>
    cases p2 with
    | nil =>
      rw [lookupPath_single] at h
      exact wf_lookupY d k v hwf h
    | cons k3 p3 =>
      cases hky : lookupY k d with
      | none =>
        rw [lookupPath_cons_none d k _ hky] at h
        cases h
      | some w =>
        cases w with
        | dict d2 =>
          rw [lookupPath_cons_dict d d2 k _ hky (by simp)] at h
          exact ih d2 v (wf_lookupY d k _ hwf hky) h
        | s x =>
          rw [lookupPath_cons_nondict d k _ _ hky rfl (by simp)] at h
          cases h
        | i x =>
          rw [lookupPath_cons_nondict d k _ _ hky rfl (by simp)] at h
          cases h
        | b x =>
          rw [lookupPath_cons_nondict d k _ _ hky rfl (by simp)] at h
          cases h
        | null =>
          rw [lookupPath_cons_nondict d k _ _ hky rfl (by simp)] at h
          cases h
        | list xs =>
          rw [lookupPath_cons_nondict d k _ _ hky rfl (by simp)] at h
          cases h

theorem merge_ok_a_leaf (a b : Dict) (path : List String) :
    ∀ c, merge_dicts a b path = Except.ok c →
      ∀ p v, leafAt a p v → leafAt c p v := by
  induction a, b, path using merge_dicts.induct with
  | case1 a path =>
    intro c hc p v hl
    rw [merge_dicts_nil] at hc
    cases hc
    exact hl
  | case2 a path key rest ad bd e h1 h2 ih =>
    intro c hc p v hl
    rw [merge_dicts_cons_recurse a key ad bd rest path h2, h1] at hc
    cases hc
  | case3 a path key rest ad bd merged h1 h2 ih1 ih2 =>
    intro c hc p v hl
    rw [merge_dicts_cons_recurse a key ad bd rest path h2, h1] at hc
    apply ih2 c hc
    obtain ⟨hp, hv⟩ := hl
    cases p with
    | nil =>
      rw [lookupPath_nil] at hp
      cases hp
      simp [isDict] at hv
    | cons k p2 =>
      by_cases hk : k = key
      · subst hk
        cases p2 with
        | nil =>
          rw [lookupPath_single, h2] at hp
          cases hp
          simp [isDict] at hv
        | cons k3 p3 =>
          rw [lookupPath_cons_dict a ad k _ h2 (by simp)] at hp
          have hin : leafAt merged (k3 :: p3) v := ih1 merged h1 (k3 :: p3) v ⟨hp, hv⟩
          refine ⟨?_, hv⟩
          rw [lookupPath_cons_dict (setY k (.dict merged) a) merged k _
            (lookupY_setY_self k _ a) (by simp)]
          exact hin.1
      · refine ⟨?_, hv⟩
        rw [lookupPath_setY_ne a k key _ p2 hk]
        exact hp
  | case4 a path key v0 rest w h2 hpe hnd ih =>
    intro c hc p v hl
    rw [merge_dicts_cons_skip a key w v0 rest path h2 (not_both_dict w v0 hnd) hpe] at hc
    exact ih c hc p v hl
  | case5 a path key v0 rest w h2 hpe hnd =>
    intro c hc p v hl
    rw [merge_dicts_cons_conflict a key w v0 rest path h2 (not_both_dict w v0 hnd)
      (Bool.eq_false_iff.mpr hpe)] at hc
    cases hc
  | case6 a path key v0 rest h2 ih =>
    intro c hc p v hl
    rw [merge_dicts_cons_new a key v0 rest path h2] at hc
    apply ih c hc
    obtain ⟨hp, hv⟩ := hl
    cases p with
    | nil =>
      rw [lookupPath_nil] at hp
      cases hp
      simp [isDict] at hv
    | cons k p2 =>
      by_cases hk : k = key
      · subst hk
        rw [lookupPath_cons_none a k p2 h2] at hp
        cases hp
      · refine ⟨?_, hv⟩
        rw [lookupPath_setY_ne a k key v0 p2 hk]
        exact hp

theorem merge_ok_b_paths (a b : Dict) (path : List String) :
    wfY (.dict b) = true → ∀ c, merge_dicts a b path = Except.ok c →
      ∀ p vb, lookupPath b p = some vb →
        ∃ vc, lookupPath c p = some vc ∧ isDict vc = isDict vb ∧
          (isDict vb = false → pyEq vc vb = true) ∧
          (lookupPath a p = none → vc = vb) := by
  induction a, b, path using merge_dicts.induct with
  | case1 a path =>
    intro _ c hc p vb hb
    rw [merge_dicts_nil] at hc
    cases hc
    cases p with
    | nil =>
      rw [lookupPath_nil] at hb
      cases hb
      exact ⟨.dict a, rfl, rfl, by simp [isDict], fun hn => by
        rw [lookupPath_nil] at hn; cases hn⟩
    | cons k p2 =>
      rw [lookupPath_cons_none [] k p2 rfl] at hb
      cases hb
  | case2 a path key rest ad bd e h1 h2 ih =>
    intro _ c hc p vb hb
    rw [merge_dicts_cons_recurse a key ad bd rest path h2, h1] at hc
    cases hc
  | case3 a path key rest ad bd merged h1 h2 ih1 ih2 =>
    intro hwf c hc p vb hb
    rw [merge_dicts_cons_recurse a key ad bd rest path h2, h1] at hc
    have hwrest := wf_dict_tail key (.dict bd) rest hwf
    have hkeyrest : lookupY key rest = none := wf_dict_head_notin key (.dict bd) rest hwf
    have hkc : lookupY key c = some (.dict merged) := by
      rw [merge_ok_lookup_notin _ _ _ c hc key hkeyrest, lookupY_setY_self]
    cases p with
    | nil =>
      rw [lookupPath_nil] at hb
      cases hb
      exact ⟨.dict c, rfl, rfl, by simp [isDict], fun hn => by
        rw [lookupPath_nil] at hn; cases hn⟩
    | cons k p2 =>
      by_cases hk : k = key
      · subst hk
        cases p2 with
        | nil =>
          rw [lookupPath_single, lookupY_cons_self] at hb
          cases hb
          refine ⟨.dict merged, ?_, rfl, by simp [isDict], ?_⟩
          · rw [lookupPath_single]
            exact hkc
          · intro hn
            rw [lookupPath_single, h2] at hn
            cases hn
        | cons k3 p3 =>
          rw [lookupPath_cons_dict _ bd k _ (lookupY_cons_self k (.dict bd) rest)
            (by simp)] at hb
          obtain ⟨vc, hvc1, hvc2, hvc3, hvc4⟩ :=
            ih1 (wf_dict_head_val k (.dict bd) rest hwf) merged h1 (k3 :: p3) vb hb
          refine ⟨vc, ?_, hvc2, hvc3, ?_⟩
          · rw [lookupPath_cons_dict c merged k _ hkc (by simp)]
            exact hvc1
          · intro hn
            rw [lookupPath_cons_dict a ad k _ h2 (by simp)] at hn
            exact hvc4 hn
      · rw [lookupPath_cons_tail key (.dict bd) rest k p2 hk] at hb
        obtain ⟨vc, hvc1, hvc2, hvc3, hvc4⟩ := ih2 hwrest c hc (k :: p2) vb hb
        refine ⟨vc, hvc1, hvc2, hvc3, ?_⟩
        intro hn
        apply hvc4
        rw [lookupPath_setY_ne a k key _ p2 hk]
        exact hn
  | case4 a path key v0 rest w h2 hpe hnd ih =>
    intro hwf c hc p vb hb
    rw [merge_dicts_cons_skip a key w v0 rest path h2 (not_both_dict w v0 hnd) hpe] at hc
    have hwrest := wf_dict_tail key v0 rest hwf
    have hkeyrest : lookupY key rest = none := wf_dict_head_notin key v0 rest hwf
    have hkc : lookupY key c = some w := by
      rw [merge_ok_lookup_notin _ _ _ c hc key hkeyrest]
      exact h2
    cases p with
    | nil =>
      rw [lookupPath_nil] at hb
      cases hb
      exact ⟨.dict c, rfl, rfl, by simp [isDict], fun hn => by
        rw [lookupPath_nil] at hn; cases hn⟩
    | cons k p2 =>
      by_cases hk : k = key
      · subst hk
        cases p2 with
        | nil =>
          rw [lookupPath_single, lookupY_cons_self] at hb
          cases hb
          refine ⟨w, ?_, isDict_eq_of_pyEq w v0 hpe, fun _ => hpe, ?_⟩
          · rw [lookupPath_single]
            exact hkc
          · intro hn
            rw [lookupPath_single, h2] at hn
            cases hn
        | cons k3 p3 =>
          obtain ⟨bd, rfl, hbd⟩ := lookupPath_cons_cons_dict k v0 rest k3 p3 vb hb
          obtain ⟨ad, rfl⟩ := pyEq_dict_right w bd hpe
          exact (hnd ad bd rfl rfl).elim
      · rw [lookupPath_cons_tail key v0 rest k p2 hk] at hb
        exact ih hwrest c hc (k :: p2) vb hb
  | case5 a path key v0 rest w h2 hpe hnd =>
    intro hwf c hc p vb hb
    rw [merge_dicts_cons_conflict a key w v0 rest path h2 (not_both_dict w v0 hnd)
      (Bool.eq_false_iff.mpr hpe)] at hc
    cases hc
  | case6 a path key v0 rest h2 ih =>
    intro hwf c hc p vb hb
    rw [merge_dicts_cons_new a key v0 rest path h2] at hc
    have hwrest := wf_dict_tail key v0 rest hwf
    have hkeyrest : lookupY key rest = none := wf_dict_head_notin key v0 rest hwf
    have hkc : lookupY key c = some v0 := by
      rw [merge_ok_lookup_notin _ _ _ c hc key hkeyrest, lookupY_setY_self]
    cases p with
    | nil =>
      rw [lookupPath_nil] at hb
      cases hb
      exact ⟨.dict c, rfl, rfl, by simp [isDict], fun hn => by
        rw [lookupPath_nil] at hn; cases hn⟩
    | cons k p2 =>
      by_cases hk : k = key
      · subst hk
        cases p2 with
        | nil =>
          rw [lookupPath_single, lookupY_cons_self] at hb
          cases hb
          refine ⟨v0, ?_, rfl,
            fun _ => pyEq_refl v0 (wf_dict_head_val k v0 rest hwf), fun _ => rfl⟩
          rw [lookupPath_single]
          exact hkc
        | cons k3 p3 =>
          obtain ⟨bd, rfl, hbd⟩ := lookupPath_cons_cons_dict k v0 rest k3 p3 vb hb
          refine ⟨vb, ?_, rfl,
            fun _ => pyEq_refl vb ?_, fun _ => rfl⟩
          · rw [lookupPath_cons_dict c bd k _ hkc (by simp)]
            exact hbd
          · exact wf_lookupPath (k3 :: p3) bd vb
              (wf_dict_head_val k (.dict bd) rest hwf) hbd
      · rw [lookupPath_cons_tail key v0 rest k p2 hk] at hb
        obtain ⟨vc, hvc1, hvc2, hvc3, hvc4⟩ := ih hwrest c hc (k :: p2) vb hb
        refine ⟨vc, hvc1, hvc2, hvc3, ?_⟩
        intro hn
        apply hvc4
        rw [lookupPath_setY_ne a k key v0 p2 hk]
        exact hn

theorem isDict_true (x : YVal) (h : isDict x = true) : ∃ d, x = YVal.dict d := by
  cases x with
  | dict d => exact ⟨d, rfl⟩
  | s y => simp [isDict] at h
  | i y => simp [isDict] at h
  | b y => simp [isDict] at h
  | null => simp [isDict] at h
  | list ys => simp [isDict] at h

theorem lookupPath_through_key (D : Dict) (k : String) (v0 : YVal) (k3 : String)
    (p3 : List String) (v : YVal) (hky : lookupY k D = some v0)
    (hp : lookupPath D (k :: k3 :: p3) = some v) :
    ∃ d2, v0 = YVal.dict d2 ∧ lookupPath d2 (k3 :: p3) = some v := by
  cases v0 with
  | dict d2 =>
    refine ⟨d2, rfl, ?_⟩
    rw [← lookupPath_cons_dict D d2 k _ hky (by simp)]
    exact hp
  | s x =>
    rw [lookupPath_cons_nondict D k (.s x) _ hky rfl (by simp)] at hp
    cases hp
  | i x =>
    rw [lookupPath_cons_nondict D k (.i x) _ hky rfl (by simp)] at hp
    cases hp
  | b x =>
    rw [lookupPath_cons_nondict D k (.b x) _ hky rfl (by simp)] at hp
    cases hp
  | null =>
    rw [lookupPath_cons_nondict D k .null _ hky rfl (by simp)] at hp
    cases hp
  | list xs =>
    rw [lookupPath_cons_nondict D k (.list xs) _ hky rfl (by simp)] at hp
    cases hp

theorem merge_ok_leaf_origin (a b : Dict) (path : List String) :
    wfY (.dict b) = true → ∀ c, merge_dicts a b path = Except.ok c →
      ∀ p v, leafAt c p v → leafAt a p v ∨ leafAt b p v := by
  induction a, b, path using merge_dicts.induct with
  | case1 a path =>
    intro _ c hc p v hl
    rw [merge_dicts_nil] at hc
    cases hc
    exact Or.inl hl
  | case2 a path key rest ad bd e h1 h2 ih =>
    intro _ c hc p v hl
    rw [merge_dicts_cons_recurse a key ad bd rest path h2, h1] at hc
    cases hc
  | case3 a path key rest ad bd merged h1 h2 ih1 ih2 =>
    intro hwf c hc p v hl
    rw [merge_dicts_cons_recurse a key ad bd rest path h2, h1] at hc
    have hwrest := wf_dict_tail key (.dict bd) rest hwf
    rcases ih2 hwrest c hc p v hl with hs | hr
    · obtain ⟨hp, hv⟩ := hs
      cases p with
      | nil =>
        rw [lookupPath_nil] at hp
        cases hp
        simp [isDict] at hv
      | cons k p2 =>
        by_cases hk : k = key
        · subst hk
          cases p2 with
          | nil =>
            rw [lookupPath_single, lookupY_setY_self] at hp
            cases hp
            simp [isDict] at hv
          | cons k3 p3 =>
            rw [lookupPath_cons_dict _ merged k _ (lookupY_setY_self k _ a)
              (by simp)] at hp
            rcases ih1 (wf_dict_head_val k (.dict bd) rest hwf) merged h1
                (k3 :: p3) v ⟨hp, hv⟩ with hia | hib
            · left
              refine ⟨?_, hv⟩
              rw [lookupPath_cons_dict a ad k _ h2 (by simp)]
              exact hia.1
            · right
              refine ⟨?_, hv⟩
              rw [lookupPath_cons_dict _ bd k _ (lookupY_cons_self k _ rest) (by simp)]
              exact hib.1
        · left
          refine ⟨?_, hv⟩
          rw [← lookupPath_setY_ne a k key _ p2 hk]
          exact hp
    · obtain ⟨hp, hv⟩ := hr
      cases p with
      | nil =>
        rw [lookupPath_nil] at hp
        cases hp
        simp [isDict] at hv
      | cons k p2 =>
        have hk : k ≠ key := confl_head_ne key (.dict bd) rest hwf k p2 v hp
        right
        refine ⟨?_, hv⟩
        rw [lookupPath_cons_tail key (.dict bd) rest k p2 hk]
        exact hp
  | case4 a path key v0 rest w h2 hpe hnd ih =>
    intro hwf c hc p v hl
    rw [merge_dicts_cons_skip a key w v0 rest path h2 (not_both_dict w v0 hnd) hpe] at hc
    rcases ih (wf_dict_tail key v0 rest hwf) c hc p v hl with ha | hr
    · exact Or.inl ha
    · obtain ⟨hp, hv⟩ := hr
      cases p with
      | nil =>
        rw [lookupPath_nil] at hp
        cases hp
        simp [isDict] at hv
      | cons k p2 =>
        have hk : k ≠ key := confl_head_ne key v0 rest hwf k p2 v hp
        right
        refine ⟨?_, hv⟩
        rw [lookupPath_cons_tail key v0 rest k p2 hk]
        exact hp
  | case5 a path key v0 rest w h2 hpe hnd =>
    intro _ c hc p v hl
    rw [merge_dicts_cons_conflict a key w v0 rest path h2 (not_both_dict w v0 hnd)
      (Bool.eq_false_iff.mpr hpe)] at hc
    cases hc
  | case6 a path key v0 rest h2 ih =>
    intro hwf c hc p v hl
    rw [merge_dicts_cons_new a key v0 rest path h2] at hc
    rcases ih (wf_dict_tail key v0 rest hwf) c hc p v hl with hs | hr
    · obtain ⟨hp, hv⟩ := hs
      cases p with
      | nil =>
        rw [lookupPath_nil] at hp
        cases hp
        simp [isDict] at hv
      | cons k p2 =>
        by_cases hk : k = key
        · subst hk
          cases p2 with
          | nil =>
            rw [lookupPath_single, lookupY_setY_self] at hp
            cases hp
            right
            refine ⟨?_, hv⟩
            rw [lookupPath_single]
            exact lookupY_cons_self k _ rest
          | cons k3 p3 =>
            obtain ⟨d2, rfl, hd2⟩ := lookupPath_through_key _ k v0 k3 p3 v
              (lookupY_setY_self k v0 a) hp
            right
            refine ⟨?_, hv⟩
            rw [lookupPath_cons_dict _ d2 k _ (lookupY_cons_self k _ rest) (by simp)]
            exact hd2
        · left
          refine ⟨?_, hv⟩
          rw [← lookupPath_setY_ne a k key v0 p2 hk]
          exact hp
    · obtain ⟨hp, hv⟩ := hr
      cases p with
      | nil =>
        rw [lookupPath_nil] at hp
        cases hp
        simp [isDict] at hv
      | cons k p2 =>
        have hk : k ≠ key := confl_head_ne key v0 rest hwf k p2 v hp
        right
        refine ⟨?_, hv⟩
        rw [lookupPath_cons_tail key v0 rest k p2 hk]
        exact hp

theorem subsumes_descend (c : Dict) (key : String) (cd bd rest : Dict)
    (hkc : lookupY key c = some (.dict cd))
    (hs : Subsumes c ((key, .dict bd) :: rest)) : Subsumes cd bd := by
  intro p vb hpb
  cases p with
  | nil =>
    rw [lookupPath_nil] at hpb
    cases hpb
    exact ⟨.dict cd, lookupPath_nil cd, rfl, by simp [isDict]⟩
  | cons k3 p3 =>
    have hb2 : lookupPath ((key, YVal.dict bd) :: rest) (key :: k3 :: p3) = some vb := by
      rw [lookupPath_cons_dict _ bd key _ (lookupY_cons_self key _ rest) (by simp)]
      exact hpb
    obtain ⟨vc, hvc1, hvc2, hvc3⟩ := hs (key :: k3 :: p3) vb hb2
    rw [lookupPath_cons_dict c cd key _ hkc (by simp)] at hvc1
    exact ⟨vc, hvc1, hvc2, hvc3⟩

theorem subsumes_tail (c : Dict) (key : String) (v0 : YVal) (rest : Dict)
    (hwf : wfY (.dict ((key, v0) :: rest)) = true)
    (hs : Subsumes c ((key, v0) :: rest)) : Subsumes c rest := by
  intro p vb hpb
  cases p with
  | nil =>
    rw [lookupPath_nil] at hpb
    cases hpb
    exact ⟨.dict c, lookupPath_nil c, rfl, by simp [isDict]⟩
  | cons k p2 =>
    have hk : k ≠ key := confl_head_ne key v0 rest hwf k p2 vb hpb
    apply hs (k :: p2) vb
    rw [lookupPath_cons_tail key v0 rest k p2 hk]
    exact hpb

theorem merge_self_of_subsumes (c b : Dict) (path : List String) :
    wfY (.dict b) = true → Subsumes c b → merge_dicts c b path = Except.ok c := by
  induction c, b, path using merge_dicts.induct with
  | case1 c path =>
    intro _ _
    exact merge_dicts_nil c path
  | case2 c path key rest cd bd e h1 h2 ih =>
    intro hwf hs
    have hok := ih (wf_dict_head_val key (.dict bd) rest hwf)
      (subsumes_descend c key cd bd rest h2 hs)
    rw [h1] at hok
    cases hok
  | case3 c path key rest cd bd merged h1 h2 ih1 ih2 =>
    intro hwf hs
    have hok := ih1 (wf_dict_head_val key (.dict bd) rest hwf)
      (subsumes_descend c key cd bd rest h2 hs)
    rw [h1] at hok
    injection hok with hmc
    subst hmc
    have hset : setY key (.dict merged) c = c := setY_eq_of_lookup key _ c h2
    rw [merge_dicts_cons_recurse c key merged bd rest path h2, h1]
    show merge_dicts (setY key (YVal.dict merged) c) rest path = Except.ok c
    rw [hset]
    rw [hset] at ih2
    exact ih2 (wf_dict_tail key (.dict bd) rest hwf)
      (subsumes_tail c key (.dict bd) rest hwf hs)
  | case4 c path key v0 rest w h2 hpe hnd ih =>
    intro hwf hs
    rw [merge_dicts_cons_skip c key w v0 rest path h2 (not_both_dict w v0 hnd) hpe]
    exact ih (wf_dict_tail key v0 rest hwf) (subsumes_tail c key v0 rest hwf hs)
  | case5 c path key v0 rest w h2 hpe hnd =>
    intro hwf hs
    obtain ⟨vc, hvc1, hvc2, hvc3⟩ := hs [key] v0 (by
      rw [lookupPath_single]
      exact lookupY_cons_self key v0 rest)
    rw [lookupPath_single, h2] at hvc1
    cases hvc1
    by_cases hd : isDict v0 = true
    · obtain ⟨bd, rfl⟩ := isDict_true v0 hd
      rw [hd] at hvc2
      obtain ⟨ad, rfl⟩ := isDict_true w hvc2
      exact ((hnd ad bd rfl rfl)).elim
    · exact absurd (hvc3 (Bool.eq_false_iff.mpr hd)) hpe
  | case6 c path key v0 rest h2 ih =>
    intro hwf hs
    obtain ⟨vc, hvc1, -, -⟩ := hs [key] v0 (by
      rw [lookupPath_single]
      exact lookupY_cons_self key v0 rest)
    rw [lookupPath_single, h2] at hvc1
    cases hvc1

theorem updateDict_cons (a : Dict) (k : String) (v : YVal) (rest : Dict) :
    updateDict a ((k, v) :: rest) = updateDict (setY k v a) rest := rfl

theorem lookupY_updateDict_none (b : Dict) (k : String) :
    ∀ a, lookupY k b = none → lookupY k (updateDict a b) = lookupY k a := by
  induction b with
  | nil =>
    intro a _
    rfl
  | cons kv rest ih =>
    intro a h
    obtain ⟨k2, v⟩ := kv
    obtain ⟨hk, hr⟩ := lookupY_cons_none k k2 v rest h
    rw [updateDict_cons, ih (setY k2 v a) hr, lookupY_setY_ne k k2 v a hk]

theorem lookupY_updateDict_some (b : Dict) (k : String) (v : YVal)
    (hd : distinctKeys b = true) (h : lookupY k b = some v) :
    ∀ a, lookupY k (updateDict a b) = some v := by
  induction b with
  | nil => simp [lookupY] at h
  | cons kv rest ih =>
    intro a
    obtain ⟨k2, w⟩ := kv
    rw [distinctKeys] at hd
    obtain ⟨h1, h2⟩ := Bool.and_eq_true_iff.mp hd
    by_cases hk : k2 = k
    · subst hk
      rw [lookupY_cons_self] at h
      cases h
      rw [updateDict_cons,
        lookupY_updateDict_none rest k2 (setY k2 v a) (Option.isNone_iff_eq_none.mp h1),
        lookupY_setY_self]
    · rw [lookupY_cons_ne k k2 w rest (fun he => hk he.symm)] at h
      rw [updateDict_cons]
      exact ih h2 h (setY k2 w a)

theorem readTextFile_writeTextFile (fs : FileMap) (path text : String) :
    readTextFile (writeTextFile fs path text) path = some text := by
  induction fs with
  | nil => simp [writeTextFile, readTextFile]
  | cons kv rest ih =>
    obtain ⟨p, t⟩ := kv
    by_cases hp : p = path
    · simp [writeTextFile, hp, readTextFile]
    · simp [writeTextFile, hp, readTextFile, ih]

/-- C1: for settings trees `A` and `B` that share a leaf key with differing
values (a dotted path resolving in both trees, not to two mappings, whose
values are not Python-equal), `merge(A, B, overwrite=False)` fails with a
conflict error naming the full dotted path of a genuinely conflicting shared
leaf key — hence exactly that key when it is the only conflicting one — and
`merge(A, B, overwrite=True)` succeeds, with each top-level key of `B`
replacing the corresponding key of `A` wholesale (shallow replace, no
recursive merge) and all other top-level keys of `A` untouched. -/
theorem merge_conflict_and_overwrite (a b : Dict) (p : List String)
    (va vb : YVal) (hwb : wfY (.dict b) = true)
    (ha : lookupPath a p = some va) (hb : lookupPath b p = some vb)
    (hleaf : (isDict va && isDict vb) = false) (hne : pyEq va vb = false) :
    ConflictOverwriteConcl a b p := by
  obtain ⟨e, he⟩ := merge_error_of_conflict a b [] p ⟨va, vb, ha, hb, hleaf, hne⟩
  obtain ⟨q, hq, heq⟩ := merge_error_names_conflict a b [] hwb e he
  rw [List.nil_append] at heq
  subst heq
  have herr : YAMLSettings.merge ⟨a⟩ ⟨b⟩ false =
      .error ("Conflict at " ++ String.intercalate "." q) := by
    rw [YAMLSettings.merge]
    simp [he]
  refine ⟨⟨q, hq, herr⟩, ?_, ?_, ?_, ?_⟩
  · intro huniq
    rw [← huniq q hq]
    exact herr
  · rw [YAMLSettings.merge]
    simp
  · intro k v hk
    exact lookupY_updateDict_some b k v (wf_dict_distinct b hwb) hk a
  · intro k hk
    exact lookupY_updateDict_none b k a hk

/-- Witness for C1 at concrete trees conflicting at `llvm.ninja`. -/
theorem merge_conflict_and_overwrite_witness :
    wfY (.dict cfB) = true ∧
    lookupPath cfA ["llvm", "ninja"] = some (.b false) ∧
    lookupPath cfB ["llvm", "ninja"] = some (.b true) ∧
    (isDict (.b false) && isDict (.b true)) = false ∧
    pyEq (.b false) (.b true) = false ∧
    ConflictOverwriteConcl cfA cfB ["llvm", "ninja"] :=
  ⟨by simp [cfB, wfY, wfYEntries, wfYList, distinctKeys, lookupY], rfl, rfl, rfl,
   by simp [pyEq],
   merge_conflict_and_overwrite cfA cfB ["llvm", "ninja"] (.b false) (.b true)
     (by simp [cfB, wfY, wfYEntries, wfYList, distinctKeys, lookupY]) rfl rfl rfl
     (by simp [pyEq])⟩

/-- C5: merging settings trees with no overlapping leaf key (every dotted path
resolving in both trees is an interior mapping of both) succeeds without
overwrite, and the result's leaves are exactly the union of both trees'
leaves, each keeping the value contributed by its source tree. -/
theorem merge_disjoint_union (a b : Dict) (hwb : wfY (.dict b) = true)
    (hno : noLeafOverlap a b) : DisjointMergeConcl a b := by
  have hnc : ∀ p, ¬ conflictPath a b p := by
    rintro p ⟨va, vb, hpa, hpb, hnd, hne⟩
    obtain ⟨hda, hdb⟩ := hno p va vb hpa hpb
    rw [hda, hdb] at hnd
    simp at hnd
  cases hm : merge_dicts a b [] with
  | error e =>
    obtain ⟨q, hq, -⟩ := merge_error_names_conflict a b [] hwb e hm
    exact absurd hq (hnc q)
  | ok c =>
    refine ⟨c, ?_, ?_, ?_, ?_⟩
    · rw [YAMLSettings.merge]
      simp [hm]
    · exact merge_ok_a_leaf a b [] c hm
    · intro p v hl
      obtain ⟨hpv, hnd⟩ := hl
      have hnotina : lookupPath a p = none := by
        cases hna : lookupPath a p with
        | none => rfl
        | some va =>
          obtain ⟨-, hdb⟩ := hno p va v hna hpv
          rw [hdb] at hnd
          exact Bool.noConfusion hnd
      obtain ⟨vc, h1, h2, h3, h4⟩ := merge_ok_b_paths a b [] hwb c hm p v hpv
      have hveq := h4 hnotina
      subst hveq
      exact ⟨h1, hnd⟩
    · exact merge_ok_leaf_origin a b [] hwb c hm

/-- Witness for C5 at concrete disjoint trees. -/
theorem merge_disjoint_union_witness :
    wfY (.dict djB) = true ∧ noLeafOverlap djA djB ∧ DisjointMergeConcl djA djB := by
  have hwb : wfY (.dict djB) = true := by
    simp [djB, wfY, wfYEntries, wfYList, distinctKeys, lookupY]
  have hno : noLeafOverlap djA djB := by
    intro p va vb hpa hpb
    cases p with
    | nil =>
      rw [lookupPath_nil] at hpa hpb
      cases hpa
      cases hpb
      exact ⟨rfl, rfl⟩
    | cons k rest =>
      by_cases hx : k = "x"
      · subst hx
        have hnb : lookupY "x" djB = none := rfl
        rw [lookupPath_cons_none djB "x" rest hnb] at hpb
        cases hpb
      · have hna : lookupY k djA = none := by
          simp [djA, lookupY, Ne.symm hx]
        rw [lookupPath_cons_none djA k rest hna] at hpa
        cases hpa
  exact ⟨hwb, hno, merge_disjoint_union djA djB hwb hno⟩

/-- C10: when a no-overwrite merge of `B` into `A` succeeds, merging `B` into
the result again also succeeds and returns the result unchanged — equal leaf
values are never reported as conflicts, so the no-overwrite merge is
idempotent in its incoming argument. -/
theorem merge_noconflict_idempotent (a b c : Dict)
    (hwb : wfY (.dict b) = true)
    (h : YAMLSettings.merge ⟨a⟩ ⟨b⟩ false = Except.ok ⟨c⟩) :
    YAMLSettings.merge ⟨c⟩ ⟨b⟩ false = Except.ok ⟨c⟩ := by
  have hm : merge_dicts a b [] = Except.ok c := by
    rw [YAMLSettings.merge] at h
    simp only [Bool.false_eq_true, if_false] at h
    cases hmm : merge_dicts a b [] with
    | error e =>
      rw [hmm] at h
      cases h
    | ok d =>
      rw [hmm] at h
      cases h
      rfl
  have hsub : Subsumes c b := by
    intro p vb hpb
    obtain ⟨vc, h1, h2, h3, -⟩ := merge_ok_b_paths a b [] hwb c hm p vb hpb
    exact ⟨vc, h1, h2, h3⟩
  have hself : merge_dicts c b [] = Except.ok c := merge_self_of_subsumes c b [] hwb hsub
  rw [YAMLSettings.merge]
  simp [hself]

/-- Witness for C10 at a concrete pair with one equal leaf and one new key. -/
theorem merge_noconflict_idempotent_witness :
    wfY (.dict idB) = true ∧
    YAMLSettings.merge ⟨idA⟩ ⟨idB⟩ false = Except.ok ⟨idC⟩ ∧
    YAMLSettings.merge ⟨idC⟩ ⟨idB⟩ false = Except.ok ⟨idC⟩ := by
  have hwb : wfY (.dict idB) = true := by
    simp [idB, wfY, wfYEntries, wfYList, distinctKeys, lookupY]
  have hme : YAMLSettings.merge ⟨idA⟩ ⟨idB⟩ false = Except.ok ⟨idC⟩ := by
    simp [YAMLSettings.merge, merge_dicts, idA, idB, idC, lookupY, setY, pyEq]
  exact ⟨hwb, hme, merge_noconflict_idempotent idA idB idC hwb hme⟩

/-- C6: saving a settings tree to a file and loading it back yields a
Python-equal tree, given that the external YAML library round-trips the
dumped document (the library contract the spec assigns to the settings
document format). -/
theorem save_load_roundtrip (ext : ExtYaml) (s : YAMLSettings) (path : String)
    (fs : FileMap) (d2 : Dict) (hload : ext.load (ext.dump s.data) = some d2)
    (heq : pyEq (.dict d2) (.dict s.data) = true) :
    RoundTripConcl ext s path fs := by
  refine ⟨⟨d2⟩, ?_, heq⟩
  rw [YAMLSettings.from_yaml_file, YAMLSettings.to_yaml_file, YAMLSettings.to_yaml,
    readTextFile_writeTextFile]
  simp [hload]

/-- Witness for C6 with a one-entry settings tree and a toy library. -/
theorem save_load_roundtrip_witness :
    extYamlEx.load (extYamlEx.dump settingsEx.data) = some [("a", .i 1)] ∧
    pyEq (.dict [("a", .i 1)]) (.dict settingsEx.data) = true ∧
    RoundTripConcl extYamlEx settingsEx "/work/.seal5/settings.yml" [] :=
  ⟨rfl, by simp [settingsEx, pyEq, pyEqEntries, lookupY],
   save_load_roundtrip extYamlEx settingsEx "/work/.seal5/settings.yml" []
     [("a", .i 1)] rfl (by simp [settingsEx, pyEq, pyEqEntries, lookupY])⟩

/-- C2 (evidence of the source defect): on the default settings,
`build("release")` resolves the release options — which render to six
`-D` flags — yet invokes the external configure step with an empty flag list,
because `Seal5Flow.build` passes the options dict as `build_llvm`'s third
positional parameter `debug`, leaving `cmake_options` at its `{}` default;
the configure and compile steps still run as two sequential external calls,
and an absent config name fails the `Invalid llvm config` assertion before
any external-process invocation. -/
theorem build_release_drops_cmake_options :
    Seal5Flow.build DEFAULT_SETTINGS "/work" "release" =
      Except.ok [ExtCall.cmakeConfigure "/work/llvm" [],
        ExtCall.make "/work/.seal5/build/release"] ∧
    lookupPath DEFAULT_SETTINGS ["llvm", "configs", "release", "options"] =
      some (.dict releaseOptions) ∧
    get_cmake_args releaseOptions =
      some ["-DCMAKE_BUILD_TYPE=Release", "-DLLVM_BUILD_TOOLS=ON",
        "-DLLVM_ENABLE_ASSERTIONS=OFF", "-DLLVM_OPTIMIZED_TABLEGEN=ON",
        "-DLLVM_ENABLE_PROJECTS=clang;lld", "-DLLVM_TARGETS_TO_BUILD=X86;RISCV"] ∧
    Seal5Flow.build DEFAULT_SETTINGS "/work" "nonexistent" =
      Except.error "Invalid llvm config: nonexistent" :=
  ⟨rfl, rfl, rfl, rfl⟩

/-- C3 (counterexample): constructing the manager over a workspace whose
metadata directory and settings file both exist leaves the state `UNKNOWN` —
it is not resolved to `INITIALIZED` (nor `UNINITIALIZED`), because `check` is
a `pass` stub. -/
theorem construct_state_stays_unknown_cex :
    (Seal5Flow.construct initializedFS "/work" "default").state = Seal5State.UNKNOWN ∧
    (Seal5Flow.construct initializedFS "/work" "default").state ≠ Seal5State.INITIALIZED ∧
    (Seal5Flow.construct initializedFS "/work" "default").state ≠ Seal5State.UNINITIALIZED :=
  ⟨rfl, by decide, by decide⟩

/-- C3 (amended): at manager construction the state is set to `UNKNOWN` and
the `check` hook leaves it unchanged (its body is `pass`, so no resolution by
directory existence happens); nothing re-checks it afterwards, so the state
stays `UNKNOWN` regardless of what exists on disk. -/
theorem construct_state_unknown (fs : WorkFS) (dir name : String) :
    (Seal5Flow.construct fs dir name).state = Seal5State.UNKNOWN ∧
    Seal5Flow.check (Seal5Flow.construct fs dir name).state =
      (Seal5Flow.construct fs dir name).state :=
  ⟨rfl, rfl⟩

/-- C4: initializing a workspace whose metadata directory already exists,
without `force`, aborts before performing any effect — the filesystem state is
returned unchanged — and the `init` CLI command terminates with exit status 1
(the abort is an unhandled `NameError` on the unresolved `ask_user`, raised
before the interactive flag is even consulted, so non-interactive runs are
covered). -/
theorem initialize_existing_meta_aborts (fs : WorkFS) (interactive clone : Bool)
    (url ref : Option String) (hroot : fs.rootIsDir = true)
    (hmeta : fs.metaIsDir = true) :
    runInitialize fs interactive clone url ref false =
      (fs, some (PyAbort.nameError "ask_user")) ∧
    initExitCode (Seal5Flow.initWorkspace fs interactive clone url ref false) = 1 := by
  have hinit : Seal5Flow.initWorkspace fs interactive clone url ref false =
      ([], some (.nameError "ask_user")) := by
    simp [Seal5Flow.initWorkspace, hroot, hmeta]
  constructor
  · rw [runInitialize, hinit]
    rfl
  · rw [hinit]
    rfl

/-- Witness for C4 over a fully initialized workspace filesystem. -/
theorem initialize_existing_meta_aborts_witness :
    initializedFS.rootIsDir = true ∧ initializedFS.metaIsDir = true ∧
    (runInitialize initializedFS false false none none false =
      (initializedFS, some (PyAbort.nameError "ask_user")) ∧
     initExitCode (Seal5Flow.initWorkspace initializedFS false false none none false) = 1) :=
  ⟨rfl, rfl, initialize_existing_meta_aborts initializedFS false false none none rfl rfl⟩

/-- C7: loading a domain model source whose name is already present in the
inputs directory fails (without any effect) when `overwrite` is false;
otherwise the file is copied into the inputs directory, the external parser is
invoked on the original file with the models directory as output target, and
the settings — with the file's name appended to the `inputs` list — are
persisted strictly after the copy, in that trace order. -/
theorem load_cdsl_spec (directory : String) (files : List String) (data : Dict)
    (file : String) (xs : List YVal)
    (hinputs : lookupY "inputs" data = some (.list xs)) :
    LoadCdslConcl directory files data file xs := by
  refine ⟨?_, ?_, lookupY_setY_self "inputs" _ data⟩
  · intro overwrite hmem hov
    subst hov
    simp [Seal5Flow.load_cdsl, hmem]
  · intro overwrite hcase
    rcases hcase with hnot | hov
    · simp [Seal5Flow.load_cdsl, hnot, hinputs]
    · subst hov
      simp [Seal5Flow.load_cdsl, hinputs]

/-- Witness for C7 on the default settings tree. -/
theorem load_cdsl_spec_witness :
    lookupY "inputs" DEFAULT_SETTINGS = some (.list []) ∧
    LoadCdslConcl "/work" ["old.core_desc"] DEFAULT_SETTINGS
      "/srv/specs/new.core_desc" [] :=
  ⟨rfl, load_cdsl_spec "/work" ["old.core_desc"] DEFAULT_SETTINGS
    "/srv/specs/new.core_desc" [] rfl⟩

/-- C8 (counterexample): with runner output containing two failing markers and
`ignore_error` false, the stage raises `RuntimeError("Tests failed!")` — a
message that contains neither failing identifier — while the identifiers are
named (in order) only in the `logger.error` line. -/
theorem test_failure_message_omits_identifiers :
    Seal5Flow.test [litOutTwoFails] false =
      { errorLog := some "2 tests failed: MC/RISCV/seal-a.s, MC/RISCV/seal-b.s",
        raised := some "Tests failed!" } ∧
    findSub ("MC/RISCV/seal-a.s".data) ("Tests failed!".data) = none ∧
    findSub ("MC/RISCV/seal-b.s".data) ("Tests failed!".data) = none :=
  ⟨rfl, rfl, rfl⟩

/-- C8 (amended): whenever the scraped failing-test list is nonempty, the test
stage emits one error-log line naming the count and every failing identifier
in the order they appeared in the runner output, and raises the hard failure
`Tests failed!` (whose message does not itself list the identifiers) unless
`ignore_error` is set, in which case it logs the same line and completes
normally. -/
theorem test_stage_logs_and_raises (outputs : List String)
    (h : test_llvm outputs ≠ []) : TestStageConcl outputs := by
  have hl : (test_llvm outputs).length > 0 := List.length_pos.mpr h
  constructor
  · simp [Seal5Flow.test, hl]
  · simp [Seal5Flow.test, hl]

/-- Witness for C8 on a two-failure runner output. -/
theorem test_stage_logs_and_raises_witness :
    test_llvm [litOutTwoFails] ≠ [] ∧ TestStageConcl [litOutTwoFails] :=
  ⟨by decide, test_stage_logs_and_raises [litOutTwoFails] (by decide)⟩

/-- C9 (counterexample): the default settings tree sets the transform pass
selection to `"*"`, not `"all"`. -/
theorem default_transform_passes_not_all :
    lookupPath DEFAULT_SETTINGS ["transform", "passes"] = some (.s "*") ∧
    lookupPath DEFAULT_SETTINGS ["transform", "passes"] ≠ some (.s "all") :=
  ⟨rfl, fun h => by
    have h2 : some (YVal.s "*") = some (YVal.s "all") := h
    simp at h2⟩

/-- C9 (amended): every successful `initialize` persists the default settings
tree, whose top-level sections are exactly `logging`, `patch`, `transform`,
`test`, `llvm`, `inputs`, `extensions`, `groups`, with the transform pass
selection defaulting to `"*"`, the groups section `{"all": "*"}`, the inputs
list empty, and the extensions section empty. -/
theorem initialize_ok_characterization (fs : WorkFS)
    (interactive clone : Bool) (url ref : Option String) (force : Bool)
    (effs : List InitEffect)
    (hok : Seal5Flow.initWorkspace fs interactive clone url ref force = (effs, none)) :
    effs = (if fs.rootIsDir = false then [InitEffect.cloneRepo url ref] else []) ++
      [InitEffect.mkdirMeta, InitEffect.mkSubdirs seal5Subdirs,
       InitEffect.writeSettingsFile DEFAULT_SETTINGS, InitEffect.setLogFile,
       InitEffect.setLogLevel
         (lookupPath DEFAULT_SETTINGS ["logging", "console", "level"])
         (lookupPath DEFAULT_SETTINGS ["logging", "file", "level"])] := by
  cases hr : fs.rootIsDir <;> cases hc : clone <;> cases hm : fs.metaIsDir <;>
    cases hf : force <;> simp_all [Seal5Flow.initWorkspace]

/-- C9 (amended): every successful `initialize` persists the default settings
tree, whose top-level sections are exactly `logging`, `patch`, `transform`,
`test`, `llvm`, `inputs`, `extensions`, `groups`, with the transform pass
selection defaulting to `"*"`, the groups section `{"all": "*"}`, the inputs
list empty, and the extensions section empty. -/
theorem initialize_persists_default_settings (fs : WorkFS)
    (interactive clone : Bool) (url ref : Option String) (force : Bool)
    (effs : List InitEffect)
    (hok : Seal5Flow.initWorkspace fs interactive clone url ref force = (effs, none)) :
    InitEffect.writeSettingsFile DEFAULT_SETTINGS ∈ effs ∧
    (applyInitEffects fs effs).settingsFileData = some DEFAULT_SETTINGS ∧
    DEFAULT_SETTINGS.map Prod.fst =
      ["logging", "patch", "transform", "test", "llvm", "inputs", "extensions",
       "groups"] ∧
    lookupPath DEFAULT_SETTINGS ["transform", "passes"] = some (.s "*") ∧
    lookupY "groups" DEFAULT_SETTINGS = some (.dict [("all", .s "*")]) ∧
    lookupY "inputs" DEFAULT_SETTINGS = some (.list []) ∧
    lookupY "extensions" DEFAULT_SETTINGS = some (.dict []) := by
  have heffs := initialize_ok_characterization fs interactive clone url ref force effs hok
  subst heffs
  refine ⟨?_, ?_, rfl, rfl, rfl, rfl, rfl⟩
  · cases hr : fs.rootIsDir <;> simp [hr]
  · cases hr : fs.rootIsDir <;> simp [hr, applyInitEffects, applyInitEffect]

/-- Witness for C9 over a workspace root without a metadata directory. -/
theorem initialize_persists_default_settings_witness :
    Seal5Flow.initWorkspace uninitFS true false none none false =
      ([InitEffect.mkdirMeta, InitEffect.mkSubdirs seal5Subdirs,
        InitEffect.writeSettingsFile DEFAULT_SETTINGS, InitEffect.setLogFile,
        InitEffect.setLogLevel
          (lookupPath DEFAULT_SETTINGS ["logging", "console", "level"])
          (lookupPath DEFAULT_SETTINGS ["logging", "file", "level"])], none) ∧
    (InitEffect.writeSettingsFile DEFAULT_SETTINGS ∈
        [InitEffect.mkdirMeta, InitEffect.mkSubdirs seal5Subdirs,
         InitEffect.writeSettingsFile DEFAULT_SETTINGS, InitEffect.setLogFile,
         InitEffect.setLogLevel
           (lookupPath DEFAULT_SETTINGS ["logging", "console", "level"])
           (lookupPath DEFAULT_SETTINGS ["logging", "file", "level"])] ∧
      (applyInitEffects uninitFS
          [InitEffect.mkdirMeta, InitEffect.mkSubdirs seal5Subdirs,
           InitEffect.writeSettingsFile DEFAULT_SETTINGS, InitEffect.setLogFile,
           InitEffect.setLogLevel
             (lookupPath DEFAULT_SETTINGS ["logging", "console", "level"])
             (lookupPath DEFAULT_SETTINGS ["logging", "file", "level"])]).settingsFileData =
        some DEFAULT_SETTINGS ∧
      DEFAULT_SETTINGS.map Prod.fst =
        ["logging", "patch", "transform", "test", "llvm", "inputs", "extensions",
         "groups"] ∧
      lookupPath DEFAULT_SETTINGS ["transform", "passes"] = some (.s "*") ∧
      lookupY "groups" DEFAULT_SETTINGS = some (.dict [("all", .s "*")]) ∧
      lookupY "inputs" DEFAULT_SETTINGS = some (.list []) ∧
      lookupY "extensions" DEFAULT_SETTINGS = some (.dict [])) :=
  ⟨rfl, initialize_persists_default_settings uninitFS true false none none false _ rfl⟩

end Seal5
